import Mathlib

/-
Verification development for the OrCADtoKiCAD repository.

Shallow embedding of the reconstruction engine:
  * `ConvertLog`  — convert_log.py  (log parser, segment preprocessing,
    polyline stitching, pin-orientation resolution, symbol building)
  * `ConvertDsn`  — convert_dsn.py  (the CAPSYM variant of the converter;
    only its `flush_rect` differs in a way the claims need)
  * `Extractor`   — extractor.py   (union-find over coordinates, net grouping)

Python floats are modelled as rationals (`ℚ`); the source only ever
compares, adds, multiplies and divides coordinates, so the rational
model is exact.  Python `round` is banker's rounding (round-half-even),
modelled by `pyRound`.  Comparisons of Euclidean lengths
(`math.hypot(dx, dy) < m`) are modelled by the equivalent comparison of
squares (`dx^2 + dy^2 < m^2`), valid because both sides of the source
comparison are nonnegative wherever the comparison is performed.
-/

/-- Banker's rounding (round-half-to-even), the semantics of Python's
builtin `round` on a real value: nearest integer, ties to the even one. -/
def pyRound (q : ℚ) : ℤ :=
  let f := ⌊q⌋
  let frac := q - f
  if frac < 1 / 2 then f
  else if 1 / 2 < frac then f + 1
  else if f % 2 = 0 then f else f + 1

/-- Python `round(x, 6)`: round to 6 decimal places (ties to even). -/
def round6 (q : ℚ) : ℚ := (pyRound (q * 1000000) : ℚ) / 1000000

/-- `pyRound` is the identity on integers. -/
theorem pyRound_intCast (k : ℤ) : pyRound (k : ℚ) = k := by
  unfold pyRound
  norm_num

/-- Python's builtin `abs` on a rational value. -/
def pyAbs (q : ℚ) : ℚ := if q < 0 then -q else q

/-- `pyAbs` agrees with the mathematical absolute value. -/
theorem pyAbs_eq_abs (q : ℚ) : pyAbs q = |q| := by
  unfold pyAbs
  rcases lt_or_le q 0 with h | h
  · rw [if_pos h, abs_of_neg h]
  · rw [if_neg (not_lt.mpr h), abs_of_nonneg h]

/-- Python's builtin `max` on two rationals (first argument on ties). -/
def pyMax (a b : ℚ) : ℚ := if a < b then b else a

/-- `pyMax` agrees with the mathematical maximum. -/
theorem pyMax_eq_max (a b : ℚ) : pyMax a b = max a b := by
  unfold pyMax
  rcases lt_or_le a b with h | h
  · rw [if_pos h, max_eq_right (le_of_lt h)]
  · rw [if_neg (not_lt.mpr h), max_eq_left h]

namespace ConvertLog

/-- `dedup(seq, key)` from convert_log.py line 19: generator keeping the
first element of each key, threading the `seen` set of already-emitted
keys.  `seen` is modelled as the list of keys emitted so far. -/
def dedupAux {α κ : Type} [DecidableEq κ] (key : α → κ) : List α → List κ → List α
  | [], _ => []
  | x :: xs, seen =>
    if key x ∈ seen then dedupAux key xs seen
    else x :: dedupAux key xs (key x :: seen)

/-- `dedup(seq, key)` with an initially empty `seen` set. -/
def dedup {α κ : Type} [DecidableEq κ] (key : α → κ) (l : List α) : List α :=
  dedupAux key l []

/-- A point, convert_log.py's `(x, y)` coordinate tuple. -/
abbrev Pt := ℚ × ℚ

/-- A raw segment `(x1, y1, x2, y2)` as convert_log.py stores it. -/
abbrev Seg := ℚ × ℚ × ℚ × ℚ

/-- First endpoint of a segment tuple. -/
def segA (s : Seg) : Pt := (s.1, s.2.1)

/-- Second endpoint of a segment tuple. -/
def segB (s : Seg) : Pt := (s.2.2.1, s.2.2.2)

/-- `snap(v, eps)` (line 66): snap a value to the epsilon grid
(`round(v / eps) * eps`), a no-op unless `eps > 0`. -/
def snap (v eps : ℚ) : ℚ :=
  if eps > 0 then (pyRound (v / eps) : ℚ) * eps else v

/-- `snap_pt(pt, eps)` (line 69). -/
def snap_pt (pt : Pt) (eps : ℚ) : Pt := (snap pt.1 eps, snap pt.2 eps)

/-- `points_close(a, b, eps)` (line 73): Chebyshev proximity test. -/
def points_close (a b : Pt) (eps : ℚ) : Bool :=
  decide (pyAbs (a.1 - b.1) ≤ eps) && decide (pyAbs (a.2 - b.2) ≤ eps)

/-- Lexicographic order on coordinate pairs: the order Python's tuple
comparison uses inside `sorted((a, b))`. -/
def pairLe (a b : Pt) : Bool :=
  decide (a.1 < b.1) || (decide (a.1 = b.1) && decide (a.2 ≤ b.2))

/-- Python's `tuple(sorted((a, b)))` on a two-element pair. -/
def sortPair (a b : Pt) : Pt × Pt :=
  if pairLe a b then (a, b) else (b, a)

/-- `seg_key(s)` (line 80): canonical direction-agnostic key — the sorted
pair of the 6-decimal-rounded endpoints. -/
def seg_key (s : Seg) : Pt × Pt :=
  sortPair (round6 s.1, round6 s.2.1) (round6 s.2.2.1, round6 s.2.2.2)

/-- Squared Euclidean length of a segment.  The source computes
`math.hypot(x2 - x1, y2 - y1)` and compares it with `min_len`; both are
nonnegative where compared, so `hypot s < m ↔ segLenSq s < m ^ 2`. -/
def segLenSq (s : Seg) : ℚ :=
  (s.2.2.1 - s.1) ^ 2 + (s.2.2.2 - s.2.1) ^ 2

/-- Snap both endpoints of a segment (the loop body of
`preprocess_segments`, line 90-93; `snap` itself already contains the
`eps > 0` guard the source duplicates at the call site). -/
def snapSeg (s : Seg) (eps : ℚ) : Seg :=
  ((snap_pt (segA s) eps).1, (snap_pt (segA s) eps).2,
   (snap_pt (segB s) eps).1, (snap_pt (segB s) eps).2)

/-- The snap-and-filter pass of `preprocess_segments` (lines 89-96):
snap endpoints, drop a segment when `min_len > 0` and it is shorter
than `min_len`. -/
def preprocessCore (eps minLen : ℚ) : List Seg → List Seg
  | [] => []
  | s :: rest =>
    let t := snapSeg s eps
    if minLen > 0 ∧ segLenSq t < minLen ^ 2 then preprocessCore eps minLen rest
    else t :: preprocessCore eps minLen rest

/-- `preprocess_segments(segs, eps, min_len)` (line 87): snap, filter,
then direction-agnostic dedup by `seg_key`, first occurrence kept. -/
def preprocess_segments (segs : List Seg) (eps minLen : ℚ) : List Seg :=
  dedup seg_key (preprocessCore eps minLen segs)

/-- Component snapping at the head of `angle_from_vec` (lines 32-33):
components of absolute value at most `eps` collapse to zero. -/
def snapc (v eps : ℚ) : ℚ := if pyAbs v ≤ eps then 0 else v

/-- `angle_from_vec(vx, vy, eps)` (line 27): map an into-body vector to a
KiCad cardinal angle, `none` when the snapped vector vanishes. -/
def angle_from_vec (vx vy eps : ℚ) : Option ℤ :=
  let sx := snapc vx eps
  let sy := snapc vy eps
  if sx = 0 ∧ sy = 0 then none
  else if sy = 0 then some (if sx > 0 then 0 else 180)
  else if sx = 0 then some (if sy > 0 then 90 else 270)
  else if pyAbs sx ≥ pyAbs sy then some (if sx > 0 then 0 else 180)
  else some (if sy > 0 then 90 else 270)

/-- A pin record as `build_symbol`/`pin_angle` consume it: the optional
numeric fields after Python's `float(...)` conversion, and the five
direction flags, where a flag is `true` iff the stored string equals
the literal `"true"` (the comparison the source performs). -/
structure CPin where
  startX : Option ℚ
  startY : Option ℚ
  hotptX : Option ℚ
  hotptY : Option ℚ
  isLeftPointing : Bool
  isRightPointing : Bool
  isClock : Bool
  isUpPointing : Bool
  isDownPointing : Bool
deriving DecidableEq

/-- `pin_angle(pin, eps)` (lines 46-63): explicit direction flags win in
the order right, left, up, down/clock; otherwise the into-body vector
`start - hot` is classified, with 0 as a harmless fallback.  Missing
coordinates default as in the source (`startX`/`startY` to `0.0`,
`hotptX`/`hotptY` to the corresponding start coordinate). -/
def pin_angle (p : CPin) (eps : ℚ) : ℤ :=
  let sx := p.startX.getD 0
  let sy := p.startY.getD 0
  let hx := p.hotptX.getD sx
  let hy := p.hotptY.getD sy
  if p.isRightPointing then 0
  else if p.isLeftPointing then 180
  else if p.isUpPointing then 90
  else if p.isDownPointing ∨ p.isClock then 270
  else (angle_from_vec (sx - hx) (sy - hy) eps).getD 0

/-- The loop body of `infer_angle_from_segs(start_xy, segs, eps)`
(convert_log.py lines 141-163): among segments touching the start
point, keep the angle of the longest touching vector.  `best_len` is
tracked squared (initial value `-1` preserved; the source compares
nonnegative lengths, so `L1 > L2 ↔ L1^2 > L2^2`, and any length beats
the initial `-1` in both models). -/
def inferStep (st : Pt) (eps : ℚ) (acc : Option ℤ × ℚ) (s : Seg) : Option ℤ × ℚ :=
  let v : Option (ℚ × ℚ) :=
    if points_close (segA s) st eps then
      some ((segB s).1 - st.1, (segB s).2 - st.2)
    else if points_close (segB s) st eps then
      some ((segA s).1 - st.1, (segA s).2 - st.2)
    else none
  match v with
  | none => acc
  | some v =>
    match angle_from_vec v.1 v.2 (pyMax (1 / 1000000) (eps / 2)) with
    | none => acc
    | some ang =>
      let lsq := v.1 ^ 2 + v.2 ^ 2
      if lsq > acc.2 then (some ang, lsq) else acc

/-- The fold of `infer_angle_from_segs`, started on `(None, -1)`. -/
def infer_angle_from_segs (st : Pt) (segs : List Seg) (eps : ℚ) : Option ℤ :=
  (segs.foldl (inferStep st eps) ((none : Option ℤ), (-1 : ℚ))).1

/-- The angle transform `TA(a)` of `build_symbol` (lines 324-331):
horizontal mirror `a ↦ (180 - a) % 360`, vertical mirror
`a ↦ (-a) % 360`, applied in that order. -/
def TA (mx my : Bool) (a : ℤ) : ℤ :=
  let a1 := if mx then (180 - a) % 360 else a
  if my then (-a1) % 360 else a1

/-- The pin-angle computation of `build_symbol` (lines 373-408): `none`
when the pin lacks `startX`/`startY` and is skipped; otherwise the
mirrored angle actually written into the output symbol.  Note the
source derives this angle from the start/hot vector and, in the
degenerate case, from segments touching the snapped start point — it
never consults the direction flags (`pin_angle` is not called). -/
def builtPinAngle (p : CPin) (segs : List Seg) (joinEps : ℚ) (mx my : Bool) :
    Option ℤ :=
  match p.startX, p.startY with
  | some sx, some sy =>
    let hx := p.hotptX.getD sx
    let hy := p.hotptY.getD sy
    let sxs := if joinEps > 0 then snap sx joinEps else sx
    let sys := if joinEps > 0 then snap sy joinEps else sy
    let pinEps := if joinEps > 0 then pyMax (1 / 1000000) (joinEps / 2) else 1 / 1000000
    match angle_from_vec (sx - hx) (sy - hy) pinEps with
    | none =>
      some (TA mx my ((infer_angle_from_segs (sxs, sys) segs joinEps).getD 0))
    | some a => some (TA mx my a)
  | _, _ => none

/-- `stitch_all_tolerant`'s attachment test (lines 117-127): try to
attach segment `s` to either end of the open chain `pts`, appending or
prepending the far endpoint, in the source's test order. -/
def tryAttach (eps : ℚ) (pts : List Pt) (s : Seg) : Option (List Pt) :=
  let a := segA s
  let b := segB s
  if points_close a (pts.getLastD (0, 0)) eps then some (pts ++ [b])
  else if points_close b (pts.getLastD (0, 0)) eps then some (pts ++ [a])
  else if points_close a (pts.headD (0, 0)) eps then some (b :: pts)
  else if points_close b (pts.headD (0, 0)) eps then some (a :: pts)
  else none

/-- One scan pass of the inner `while i < len(unused)` loop (lines
116-128): test each pooled segment in order against the current chain
(which grows during the pass), returning the grown chain, the segments
left unconsumed, and whether anything attached. -/
def scanOnce (eps : ℚ) : List Seg → List Pt → List Pt × List Seg × Bool
  | [], pts => (pts, [], false)
  | s :: rest, pts =>
    match tryAttach eps pts s with
    | some pts2 =>
      let r := scanOnce eps rest pts2
      (r.1, r.2.1, true)
    | none =>
      let r := scanOnce eps rest pts
      (r.1, s :: r.2.1, r.2.2)

/-- The `while grown` loop (lines 113-128): repeat scan passes until one
makes no extension.  Fuel bounds the number of passes; every pass that
continues has consumed at least one segment, so `unused.length` passes
always reach the fixpoint (a final pass over what remains would attach
nothing and change nothing). -/
def growChain : ℕ → ℚ → List Pt → List Seg → List Pt × List Seg
  | 0, _, pts, unused => (pts, unused)
  | fuel + 1, eps, pts, unused =>
    let r := scanOnce eps unused pts
    if r.2.2 then growChain fuel eps r.1 r.2.1 else (r.1, r.2.1)

/-- `unused.pop()` (line 108): remove and return the last element. -/
def popLast {α : Type} : List α → Option (α × List α)
  | [] => none
  | [x] => some (x, [])
  | x :: xs =>
    match popLast xs with
    | none => none
    | some (y, ys) => some (y, x :: ys)

/-- The outer `while unused` loop of `stitch_all_tolerant` (lines
111-129): seed a chain from the popped segment, grow it to fixpoint,
emit it, repeat.  Each iteration consumes at least the seed, so
`segs.length` iterations of fuel always empty the pool. -/
def stitchLoop : ℕ → ℚ → List Seg → List (List Pt) → List (List Pt)
  | 0, _, _, acc => acc.reverse
  | fuel + 1, eps, unused, acc =>
    match popLast unused with
    | none => acc.reverse
    | some (s, rest) =>
      let r := growChain rest.length eps [segA s, segB s] rest
      stitchLoop fuel eps r.2 (r.1 :: acc)

/-- `stitch_all_tolerant(segs, eps)` (line 99): partition segments into
continuous polylines by tolerant endpoint matching. -/
def stitch_all_tolerant (segs : List Seg) (eps : ℚ) : List (List Pt) :=
  stitchLoop segs.length eps segs []

/-- A pin dictionary as `parse_log` accumulates it (lines 218-231): raw
string values for whichever of the recognized keys have been seen. -/
structure LogPin where
  name : Option String
  startX : Option String
  startY : Option String
  hotptX : Option String
  hotptY : Option String
  isLeftPointing : Option String
  isRightPointing : Option String
  isClock : Option String
  isUpPointing : Option String
  isDownPointing : Option String
deriving DecidableEq

/-- The empty pin dictionary appended on a pin-start line (line 219). -/
def emptyPin : LogPin := ⟨none, none, none, none, none, none, none, none, none, none⟩

/-- Store one recognized `key = value` pin attribute (line 231). -/
def setPinField (p : LogPin) (k v : String) : LogPin :=
  if k = "name" then { p with name := some v }
  else if k = "startX" then { p with startX := some v }
  else if k = "startY" then { p with startY := some v }
  else if k = "hotptX" then { p with hotptX := some v }
  else if k = "hotptY" then { p with hotptY := some v }
  else if k = "isLeftPointing" then { p with isLeftPointing := some v }
  else if k = "isRightPointing" then { p with isRightPointing := some v }
  else if k = "isClock" then { p with isClock := some v }
  else if k = "isUpPointing" then { p with isUpPointing := some v }
  else if k = "isDownPointing" then { p with isDownPointing := some v }
  else p

/-- The recognized pin attribute keys (lines 226-230). -/
def pinKeys : List String :=
  ["name", "startX", "startY", "hotptX", "hotptY",
   "isLeftPointing", "isRightPointing", "isClock",
   "isUpPointing", "isDownPointing"]

/-- The per-symbol pin dedup key of `parse_log` (lines 291-298):
`(startX, startY, hotptX or startX, hotptY or startY)` — coordinates
only; names, numbers and direction flags play no part. -/
def pinKey (p : LogPin) : Option String × Option String × Option String × Option String :=
  (p.startX, p.startY,
   (p.hotptX.orElse fun _ => p.startX),
   (p.hotptY.orElse fun _ => p.startY))

/-- One of the coordinate keys `x1|y1|x2|y2`. -/
inductive CKey where
  | x1
  | y1
  | x2
  | y2
deriving DecidableEq

/-- The in-progress four-field coordinate record used for `seg_state`,
`rect_state` and `ell_state` (lines 235, 239, 243); the capture regex
`(-?\d+)` only ever stores integers here. -/
structure Fields4 where
  x1 : Option ℤ
  y1 : Option ℤ
  x2 : Option ℤ
  y2 : Option ℤ
deriving DecidableEq

/-- A fresh all-`None` coordinate record. -/
def emptyFields : Fields4 := ⟨none, none, none, none⟩

/-- Store one captured coordinate (lines 251, 265, 273). -/
def setField (r : Fields4) (k : CKey) (v : ℤ) : Fields4 :=
  match k with
  | .x1 => { r with x1 := some v }
  | .y1 => { r with y1 := some v }
  | .x2 => { r with x2 := some v }
  | .y2 => { r with y2 := some v }

/-- `all(v is not None for v in state.values())` (lines 175, 188, 252). -/
def complete (r : Fields4) : Bool :=
  r.x1.isSome && r.y1.isSome && r.x2.isSome && r.y2.isSome

/-- An integer segment tuple as `parse_log` stores it (the log capture
regex only yields integers; `build_symbol` later converts to floats). -/
abbrev SegZ := ℤ × ℤ × ℤ × ℤ

/-- The four rectangle edges emitted by `flush_rect` (lines 178-183). -/
def rectEdges (x1 y1 x2 y2 : ℤ) : List SegZ :=
  [(x1, y1, x2, y1), (x2, y1, x2, y2), (x2, y2, x1, y2), (x1, y2, x1, y1)]

/-- `flush_rect` of `parse_log` (lines 173-184): when every coordinate
field is present, append the four edges to the symbol's segments; there
is no degenerate-extent check in this file's variant. -/
def flush_rect (r : Fields4) (segs : List SegZ) : List SegZ :=
  match r.x1, r.y1, r.x2, r.y2 with
  | some x1, some y1, some x2, some y2 => segs ++ rectEdges x1 y1 x2 y2
  | _, _, _, _ => segs

/-- A symbol bucket of `parse_log`'s `pool` (lines 208-211). -/
structure SymRec where
  name : String
  pins : List LogPin
  segments : List SegZ
  props : List (String × String)
deriving DecidableEq

/-- One log line, abstracted to the results of the independent textual
tests `parse_log` applies to it.  A physical line can satisfy several
tests at once (the source performs them in sequence without always
continuing), so each test is a separate field. -/
structure LogLine where
  /-- payload of the `\bnormalName\s*=\s*([A-Za-z0-9_.-]+)` search (line 206) -/
  normalName : Option String
  /-- the line contains `OOCP::StructSymbolPin` (line 218) -/
  isPinHeader : Bool
  /-- result of the `\s*(\w+)\s*=\s*(.+)` pin-attribute match (line 225) -/
  pinAttr : Option (String × String)
  /-- the line contains `OOCP::PrimLine` (line 234) -/
  isPrimLine : Bool
  /-- the line contains `OOCP::PrimRect` (line 238) -/
  isPrimRect : Bool
  /-- the line contains `OOCP::PrimEllipse` (line 242) -/
  isPrimEllipse : Bool
  /-- result of the `\s*(x1|y1|x2|y2)\s*=\s*(-?\d+)` match; the captured
  value is an integer (lines 249, 263, 271) -/
  coord : Option (CKey × ℤ)
  /-- the line starts with `[` (line 258) -/
  startsBracket : Bool
  /-- the line contains `Ending OOCP::PrimRect::read` (line 266) -/
  endRect : Bool
  /-- the line contains `Ending OOCP::PrimEllipse::read` (line 274) -/
  endEllipse : Bool
  /-- the line starts with `[debug] 0x` (lines 266, 274) -/
  debugHex : Bool
  /-- payload of the `partValue\s*=\s*(.+)` search (line 279) -/
  partValue : Option String
  /-- payload of the `pcbFootprint\s*=\s*(.+)` search (line 283) -/
  pcbFootprint : Option String

/-- The whole mutable state of the `parse_log` loop (lines 168-171):
the ordered symbol pool, the current symbol (by name), and the three
mutually-exclusive in-progress primitive states. -/
structure PState where
  pool : List (String × SymRec)
  cur : Option String
  seg_state : Option Fields4
  rect_state : Option Fields4
  ell_state : Option Fields4

/-- Look a symbol up in the ordered pool. -/
def lookupSym (pool : List (String × SymRec)) (c : String) : Option SymRec :=
  (pool.find? fun kv => kv.1 = c).map fun kv => kv.2

/-- Update the bucket of symbol `c` in place. -/
def updPool (pool : List (String × SymRec)) (c : String) (f : SymRec → SymRec) :
    List (String × SymRec) :=
  pool.map fun kv => if kv.1 = c then (kv.1, f kv.2) else kv

/-- `pool.setdefault(name, fresh)` (line 208) on the ordered dict: keep
an existing bucket, otherwise append a fresh one. -/
def setdefaultPool (pool : List (String × SymRec)) (n : String) :
    List (String × SymRec) :=
  if (pool.find? fun kv => kv.1 = n).isSome then pool
  else pool ++ [(n, ⟨n, [], [], []⟩)]

/-- `props[k] = v` on the ordered property dict (lines 281, 285):
replace in place when the key exists, else append. -/
def setProp (props : List (String × String)) (k v : String) :
    List (String × String) :=
  if (props.find? fun kv => kv.1 = k).isSome then
    props.map fun kv => if kv.1 = k then (k, v) else kv
  else props ++ [(k, v)]

/-- Replace the last pin of the list (the `cur['pins'][-1][...] = ...`
update of line 231); identity on an empty list. -/
def updLastPin (pins : List LogPin) (k v : String) : List LogPin :=
  match pins.getLast? with
  | none => pins
  | some p => pins.dropLast ++ [setPinField p k v]

/-- Process one log line, mirroring the `for ln in lines` body of
`parse_log` (lines 204-285) branch for branch, including the branches
that fall through without `continue`.  `flush_ellipse` (lines 186-202)
approximates the ellipse with `cos`/`sin` chords; that irrational
geometry is outside every claim, so here the ellipse flush clears the
state without emitting chord segments — the *transitions* of
`ell_state` are modelled faithfully. -/
def step (st : PState) (ln : LogLine) : PState :=
  match ln.normalName with
  | some n =>
    { pool := setdefaultPool st.pool n, cur := some n,
      seg_state := none, rect_state := none, ell_state := none }
  | none =>
    match st.cur with
    | none => st
    | some c =>
      if ln.isPinHeader then
        { st with
          pool := updPool st.pool c fun s => { s with pins := s.pins ++ [emptyPin] },
          seg_state := none, rect_state := none, ell_state := none }
      else
        let st1 :=
          match ln.pinAttr with
          | some (k, v) =>
            if k ∈ pinKeys ∧ ((lookupSym st.pool c).map (fun s : SymRec => !s.pins.isEmpty)).getD false then
              { st with pool := updPool st.pool c fun s => { s with pins := updLastPin s.pins k v } }
            else st
          | none => st
        if ln.isPrimLine then
          { st1 with seg_state := some emptyFields, rect_state := none, ell_state := none }
        else if ln.isPrimRect then
          { st1 with rect_state := some emptyFields, seg_state := none, ell_state := none }
        else if ln.isPrimEllipse then
          { st1 with ell_state := some emptyFields, seg_state := none, rect_state := none }
        else
          let st2 :=
            match st1.seg_state with
            | none => st1
            | some r =>
              match ln.coord with
              | some (k, v) =>
                let r2 := setField r k v
                if complete r2 then
                  { st1 with
                    pool := updPool st1.pool c fun s =>
                      { s with segments := s.segments ++
                          [(r2.x1.getD 0, r2.y1.getD 0, r2.x2.getD 0, r2.y2.getD 0)] },
                    seg_state := none }
                else { st1 with seg_state := some r2 }
              | none =>
                if ln.startsBracket then { st1 with seg_state := none } else st1
          let st3 :=
            match st2.rect_state with
            | none => st2
            | some r =>
              match ln.coord with
              | some (k, v) => { st2 with rect_state := some (setField r k v) }
              | none =>
                if ln.endRect ∨ ln.debugHex then
                  { st2 with
                    pool := updPool st2.pool c fun s => { s with segments := flush_rect r s.segments },
                    rect_state := none }
                else st2
          let st4 :=
            match st3.ell_state with
            | none => st3
            | some r =>
              match ln.coord with
              | some (k, v) => { st3 with ell_state := some (setField r k v) }
              | none =>
                if ln.endEllipse ∨ ln.debugHex then { st3 with ell_state := none }
                else st3
          let st5 :=
            match ln.partValue with
            | some v => { st4 with pool := updPool st4.pool c fun s => { s with props := setProp s.props "PartValue" v } }
            | none => st4
          match ln.pcbFootprint with
          | some v => { st5 with pool := updPool st5.pool c fun s => { s with props := setProp s.props "Footprint" v } }
          | none => st5

/-- The initial `parse_log` state (line 168). -/
def initState : PState := ⟨[], none, none, none, none⟩

/-- The printable name of a coordinate key. -/
def ckeyStr : CKey → String
  | .x1 => "x1"
  | .y1 => "y1"
  | .x2 => "x2"
  | .y2 => "y2"

/-- A literal `normalName = n` line.  Such a line also matches the
generic `key = value` pin-attribute pattern, recorded accordingly. -/
def nameLn (n : String) : LogLine :=
  ⟨some n, false, some ("normalName", n), false, false, false, none,
   false, false, false, false, none, none⟩

/-- A literal `OOCP::StructSymbolPin` header line. -/
def pinHeaderLn : LogLine :=
  ⟨none, true, none, false, false, false, none, false, false, false, false, none, none⟩

/-- A literal `OOCP::PrimLine` header line. -/
def primLineLn : LogLine :=
  ⟨none, false, none, true, false, false, none, false, false, false, false, none, none⟩

/-- A literal `OOCP::PrimRect` header line. -/
def primRectLn : LogLine :=
  ⟨none, false, none, false, true, false, none, false, false, false, false, none, none⟩

/-- A literal `OOCP::PrimEllipse` header line. -/
def primEllipseLn : LogLine :=
  ⟨none, false, none, false, false, true, none, false, false, false, false, none, none⟩

/-- A literal `k = v` coordinate line (integer value); it also matches
the generic `key = value` pattern, with a key outside `pinKeys`. -/
def coordLn (k : CKey) (v : ℤ) : LogLine :=
  ⟨none, false, some (ckeyStr k, toString v), false, false, false, some (k, v),
   false, false, false, false, none, none⟩

/-- A literal `Ending OOCP::PrimRect::read` marker line.  Such a line
necessarily *contains* the substring `OOCP::PrimRect`, so `isPrimRect`
is true: the parser's header test (line 238) catches it before the
flush branch (line 266) can run, resetting the pending rectangle. -/
def endRectLn : LogLine :=
  ⟨none, false, none, false, true, false, none, false, true, false, false, none, none⟩

/-- A literal `[debug] 0x...` trace-block line: it starts with `[` and
with `[debug] 0x`, and contains none of the header tokens.  This is
the only kind of line on which the rect/ellipse flush branches (lines
266, 274) actually fire. -/
def debugHexLn : LogLine :=
  ⟨none, false, none, false, false, false, none, true, false, false, true, none, none⟩

/-- A literal `k = v` pin-attribute line for a pin key (no coordinate
match: pin keys are disjoint from `x1|y1|x2|y2`). -/
def pinAttrLn (k v : String) : LogLine :=
  ⟨none, false, some (k, v), false, false, false, none, false, false, false, false, none, none⟩

/-- `parse_log` (lines 166-300) over the abstracted lines: fold the step
function, then finalize every bucket by deduplicating segments (exact
tuple key) and pins (coordinate key).  Note there is no flush of a
pending primitive at end of stream. -/
def parse_log (lines : List LogLine) : List SymRec :=
  let fin := lines.foldl step initState
  fin.pool.map fun kv =>
    { kv.2 with
      segments := dedup (fun s : SegZ => s) kv.2.segments,
      pins := dedup pinKey kv.2.pins }

end ConvertLog

namespace ConvertDsn

/-- The in-progress rectangle record of `parse_capsym_log` (its capture
regex accepts decimals, so the fields are rationals there). -/
structure RectQ where
  x1 : Option ℚ
  y1 : Option ℚ
  x2 : Option ℚ
  y2 : Option ℚ
deriving DecidableEq

/-- The four rectangle edges (convert_dsn.py line 104). -/
def rectEdges (x1 y1 x2 y2 : ℚ) : List ConvertLog.Seg :=
  [(x1, y1, x2, y1), (x2, y1, x2, y2), (x2, y2, x1, y2), (x1, y2, x1, y1)]

/-- `flush_rect` of `parse_capsym_log` (convert_dsn.py lines 100-104):
unlike the convert_log.py variant, a rectangle whose bounding box has
zero width (`x1 == x2`) or zero height (`y1 == y2`) emits nothing. -/
def flush_rect (r : RectQ) (segs : List ConvertLog.Seg) :
    List ConvertLog.Seg :=
  match r.x1, r.y1, r.x2, r.y2 with
  | some x1, some y1, some x2, some y2 =>
    if x1 = x2 ∨ y1 = y2 then segs else segs ++ rectEdges x1 y1 x2 y2
  | _, _, _, _ => segs

end ConvertDsn

namespace Extractor

/-- A coordinate key of the disjoint-set forest: the integer `(x, y)`
pairs extractor.py unions (wire endpoints, pin hot points). -/
abbrev Coord := ℤ × ℤ

/-- The parent dictionary `self.p`, modelled as an insertion-ordered
association list (Python dicts preserve insertion order). -/
abbrev PMap := List (Coord × Coord)

/-- Dictionary lookup `self.p[x]`. -/
def lookupP (p : PMap) (x : Coord) : Option Coord :=
  (p.find? fun kv => kv.1 = x).map fun kv => kv.2

/-- Dictionary assignment `self.p[x] = v`: replace in place when the key
exists, else append (insertion order). -/
def setP (p : PMap) (x v : Coord) : PMap :=
  if (p.find? fun kv => kv.1 = x).isSome then
    p.map fun kv => if kv.1 = x then (x, v) else kv
  else p ++ [(x, v)]

/-- `self.p.setdefault(x, x)` (extractor.py lines 14, 17). -/
def setdefaultP (p : PMap) (x : Coord) : PMap :=
  if (p.find? fun kv => kv.1 = x).isSome then p else p ++ [(x, x)]

/-- `DSU.find` (extractor.py lines 14-16):

    self.p.setdefault(x, x)
    self.p[x] = x if self.p[x] == x else self.find(self.p[x])
    return self.p[x]

The source recurses once per parent link; this model instruments that
recursion with explicit fuel (the stack budget: each unit is one nested
invocation the Python interpreter must keep a frame for) and returns,
along with the root and the compressed map, the recursion depth — the
number of nested `find` invocations the call performed.  `none` means
the fuel was exhausted before a root was reached. -/
def find (fuel : ℕ) (p : PMap) (x : Coord) : Option (Coord × PMap × ℕ) :=
  match fuel with
  | 0 => none
  | fuel + 1 =>
    let p1 := setdefaultP p x
    match lookupP p1 x with
    | none => none
    | some v =>
      if v = x then some (x, p1, 1)
      else
        match find fuel p1 v with
        | none => none
        | some (r, p2, d) => some (r, setP p2 x r, d + 1)

/-- `DSU.union` (extractor.py lines 17-19): setdefault both keys, find
both roots, then point `rb` at `ra` (the source's conditional assigns
`ra` in both branches).  Exhausted fuel leaves the map as is (the
Python analogue is a crashed `find`; union is only ever applied with
ample fuel in this development). -/
def union (fuel : ℕ) (p : PMap) (a b : Coord) : PMap :=
  let p1 := setdefaultP p a
  let p2 := setdefaultP p1 b
  match find fuel p2 a with
  | none => p2
  | some (ra, p3, _) =>
    match find fuel p3 b with
    | none => p3
    | some (rb, p4, _) => setP p4 rb ra

/-- The `i`-th node of a straight parent chain. -/
def chainNode (i : ℕ) : Coord := ((i : ℤ), 0)

/-- A straight parent chain `(0,0) → (1,0) → ⋯ → (n,0)`: the map
`{(i,0) : (i+1,0) | i < n}`, whose root `(n,0)` is implicit (absent, so
`setdefault` materializes it on first visit). -/
def chainP (n : ℕ) : PMap :=
  (List.range n).map fun i => (chainNode i, chainNode (i + 1))

/-- Ordered-dict accumulation `d[k].extend(vs)` on a `defaultdict(list)`:
groups keep their first-insertion order, as in `pin_pts` and `nets_cl`
(extractor.py lines 45, 81). -/
def groupAdd {β : Type} (groups : List (Coord × List β)) (k : Coord) (vs : List β) :
    List (Coord × List β) :=
  if (groups.find? fun g => g.1 = k).isSome then
    groups.map fun g => if g.1 = k then (g.1, g.2 ++ vs) else g
  else groups ++ [(k, vs)]

/-- The `pin_pts` defaultdict (lines 45, 71-73): pin records grouped by
hot-point coordinate in first-seen order. -/
def buildPinPts (pins : List (Coord × String × String)) :
    List (Coord × List (String × String)) :=
  pins.foldl (fun acc pr => groupAdd acc pr.1 [pr.2]) []

/-- The wires loop (lines 76-78): union each wire's endpoints. -/
def unionWires (fuel : ℕ) (wires : List (Coord × Coord)) : PMap :=
  wires.foldl (fun p w => union fuel p w.1 w.2) []

/-- The net name `"%s/%s" % conns[0]` (line 88). -/
def netName (conns : List (String × String)) : String :=
  match conns with
  | [] => ""
  | c :: _ => c.1 ++ "/" ++ c.2

/-- The nets part of `parse_components_and_nets` (extractor.py lines
75-91): union all wires, group pin records by the `find` root of their
coordinate (threading the mutated forest through the loop), then
enumerate the groups in first-insertion order with net codes from 1 and
a name from each group's first connection.  Fuel is sized so that every
`find` on the acyclic forest terminates: the map never holds more than
`2 * wires + pins + 1` keys, so depth can never exceed the fuel. -/
def netsOf (pins : List (Coord × String × String)) (wires : List (Coord × Coord)) :
    List (String × ℕ × List (String × String)) :=
  let fuel := 2 * wires.length + pins.length + 2
  let dsu0 := unionWires fuel wires
  let acc := (buildPinPts pins).foldl
    (fun (acc : List (Coord × List (String × String)) × PMap) g =>
      match find fuel acc.2 g.1 with
      | none => acc
      | some (r, p2, _) => (groupAdd acc.1 r g.2, p2))
    ([], dsu0)
  acc.1.enum.map fun ig => (netName ig.2.2, ig.1 + 1, ig.2.2)

end Extractor



/-- Consecutive edges of a segment list are linked end to start. -/
def chainLinked : List ConvertLog.Seg → Prop
  | [] => True
  | [_] => True
  | s :: t :: rest => ConvertLog.segB s = ConvertLog.segA t ∧ chainLinked (t :: rest)

/-- A segment list forms a closed boundary: consecutive edges are
linked, and the last edge returns to the first edge's start. -/
def closedBoundary (l : List ConvertLog.Seg) : Prop :=
  chainLinked l ∧
    ∀ s0 sl, l.head? = some s0 → l.getLast? = some sl →
      ConvertLog.segB sl = ConvertLog.segA s0

/-- Claim C2, counterexample: in convert_log.py, `flush_rect` on a
complete rectangle with zero width (`x1 = x2 = 0`, `y1 = 0`, `y2 = 5`)
emits four (degenerate) edge segments, not zero — this file's variant
has no zero-extent check. -/
theorem C2_counterexample_zero_width_rect_emits_four :
    ConvertLog.flush_rect ⟨some 0, some 0, some 0, some 5⟩ [] =
      [(0, 0, 0, 0), (0, 0, 0, 5), (0, 5, 0, 5), (0, 5, 0, 0)] ∧
    (ConvertLog.flush_rect ⟨some 0, some 0, some 0, some 5⟩ []).length ≠ 0 := by
  constructor
  · decide
  · decide

/-- Claim C2, amended: in convert_dsn.py, `flush_rect` emits zero
segments for a zero-width or zero-height rectangle and exactly the four
closed-boundary edges otherwise; in convert_log.py, `flush_rect` emits
the four edges whenever all four fields are present, including
degenerate zero-extent rectangles. -/
theorem C2_amended_flush_rect_behavior :
    (∀ (x1 y1 x2 y2 : ℚ) (segs : List ConvertLog.Seg),
        (x1 = x2 ∨ y1 = y2 →
          ConvertDsn.flush_rect ⟨some x1, some y1, some x2, some y2⟩ segs = segs) ∧
        (x1 ≠ x2 → y1 ≠ y2 →
          ConvertDsn.flush_rect ⟨some x1, some y1, some x2, some y2⟩ segs =
            segs ++ ConvertDsn.rectEdges x1 y1 x2 y2 ∧
          (ConvertDsn.rectEdges x1 y1 x2 y2).length = 4 ∧
          closedBoundary (ConvertDsn.rectEdges x1 y1 x2 y2))) ∧
    (∀ (x1 y1 x2 y2 : ℤ) (segs : List ConvertLog.SegZ),
        ConvertLog.flush_rect ⟨some x1, some y1, some x2, some y2⟩ segs =
          segs ++ ConvertLog.rectEdges x1 y1 x2 y2) := by
  constructor
  · intro x1 y1 x2 y2 segs
    constructor
    · intro h
      simp [ConvertDsn.flush_rect, h]
    · intro h1 h2
      refine ⟨?_, rfl, ?_, ?_⟩
      · simp [ConvertDsn.flush_rect, h1, h2]
      · simp [ConvertDsn.rectEdges, chainLinked, ConvertLog.segA, ConvertLog.segB]
      · intro s0 sl h0 hl
        simp [ConvertDsn.rectEdges] at h0 hl
        subst h0
        subst hl
        rfl
  · intro x1 y1 x2 y2 segs
    rfl

/-- Claim C2, witness for the amended theorem at concrete rectangles:
the spec's example rectangle `x1=0, y1=0, x2=10, y2=5` flushes exactly
four closed-boundary edges in convert_dsn.py, and a zero-width
rectangle flushes nothing there. -/
theorem C2_amended_witness :
    ConvertDsn.flush_rect ⟨some 0, some 0, some 0, some 5⟩ [] = [] ∧
    ConvertDsn.flush_rect ⟨some 0, some 0, some 10, some 5⟩ [] =
      [] ++ ConvertDsn.rectEdges 0 0 10 5 ∧
    (ConvertDsn.rectEdges 0 0 10 5).length = 4 ∧
    closedBoundary (ConvertDsn.rectEdges 0 0 10 5) :=
  ⟨((C2_amended_flush_rect_behavior.1 0 0 0 5 []).1 (Or.inl rfl)),
   ((C2_amended_flush_rect_behavior.1 0 0 10 5 []).2 (by norm_num) (by norm_num))⟩

/-- Claim C3, counterexample: a pin with `isUpPointing = "true"` but
into-body vector `start - hot = (5, 0)` is emitted by `build_symbol`
with angle 0, not 90 — the emission path derives the angle from the
vector alone and never consults the direction flags. -/
theorem C3_counterexample_up_flag_ignored_in_output :
    ConvertLog.builtPinAngle ⟨some 5, some 0, some 0, some 0, false, false, false, true, false⟩
        [] 1 false false = some 0 ∧
    (some (0 : ℤ) ≠ some (90 : ℤ)) := by
  constructor
  · norm_num [ConvertLog.builtPinAngle, ConvertLog.angle_from_vec, ConvertLog.snapc,
      ConvertLog.TA, pyAbs, pyMax]
  · decide

/-- Claim C3, amended: the helper `pin_angle` does map explicit
direction flags to the cardinal angles with priority right, left, up,
down/clock, overriding any vector; but `build_symbol`'s emitted pin
angle is computed without consulting the flags at all (it depends only
on the coordinates, the segments and the mirror options), so an
explicit `isUpPointing` does not force 90° in the output symbol. -/
theorem C3_amended_flags_only_in_helper :
    (∀ (sx sy hx hy : Option ℚ) (b1 b3 b4 b5 : Bool) (e : ℚ),
        ConvertLog.pin_angle ⟨sx, sy, hx, hy, b1, true, b3, b4, b5⟩ e = 0) ∧
    (∀ (sx sy hx hy : Option ℚ) (b3 b4 b5 : Bool) (e : ℚ),
        ConvertLog.pin_angle ⟨sx, sy, hx, hy, true, false, b3, b4, b5⟩ e = 180) ∧
    (∀ (sx sy hx hy : Option ℚ) (b3 b5 : Bool) (e : ℚ),
        ConvertLog.pin_angle ⟨sx, sy, hx, hy, false, false, b3, true, b5⟩ e = 90) ∧
    (∀ (sx sy hx hy : Option ℚ) (b3 : Bool) (e : ℚ),
        ConvertLog.pin_angle ⟨sx, sy, hx, hy, false, false, b3, false, true⟩ e = 270) ∧
    (∀ (sx sy hx hy : Option ℚ) (e : ℚ),
        ConvertLog.pin_angle ⟨sx, sy, hx, hy, false, false, true, false, false⟩ e = 270) ∧
    (∀ (sx sy hx hy : Option ℚ) (b1 b2 b3 b4 b5 c1 c2 c3 c4 c5 : Bool)
        (segs : List ConvertLog.Seg) (e : ℚ) (mx my : Bool),
        ConvertLog.builtPinAngle ⟨sx, sy, hx, hy, b1, b2, b3, b4, b5⟩ segs e mx my =
          ConvertLog.builtPinAngle ⟨sx, sy, hx, hy, c1, c2, c3, c4, c5⟩ segs e mx my) := by
  refine ⟨?_, ?_, ?_, ?_, ?_, ?_⟩
  · intro sx sy hx hy b1 b3 b4 b5 e
    simp [ConvertLog.pin_angle]
  · intro sx sy hx hy b3 b4 b5 e
    simp [ConvertLog.pin_angle]
  · intro sx sy hx hy b3 b5 e
    simp [ConvertLog.pin_angle]
  · intro sx sy hx hy b3 e
    simp [ConvertLog.pin_angle]
  · intro sx sy hx hy e
    simp [ConvertLog.pin_angle]
  · intro sx sy hx hy b1 b2 b3 b4 b5 c1 c2 c3 c4 c5 segs e mx my
    rfl

/-- Claim C4, counterexample: for the diagonal tie `v = (1, 1)` (both
components surviving the default `1e-6` snap and of equal absolute
value) `angle_from_vec` returns 0 — the horizontal direction — whereas
the claim requires the vertical axis's 90. -/
theorem C4_counterexample_tie_is_horizontal :
    ConvertLog.angle_from_vec 1 1 (1 / 1000000) = some 0 ∧
    (some (0 : ℤ) ≠ some (90 : ℤ)) := by
  constructor
  · norm_num [ConvertLog.angle_from_vec, ConvertLog.snapc, pyAbs]
  · decide

/-- Claim C4, amended: with both snapped components non-zero, the
dominant axis (strictly larger absolute component) decides the cardinal
direction, and an exact tie `|vx| = |vy|` resolves toward the
horizontal axis (the source tests `abs(vx) >= abs(vy)`), not the
vertical one. -/
theorem C4_amended_dominant_axis_tie_horizontal :
    (∀ vx vy eps : ℚ, ConvertLog.snapc vx eps ≠ 0 → ConvertLog.snapc vy eps ≠ 0 →
        |ConvertLog.snapc vx eps| > |ConvertLog.snapc vy eps| →
        ConvertLog.angle_from_vec vx vy eps =
          some (if ConvertLog.snapc vx eps > 0 then 0 else 180)) ∧
    (∀ vx vy eps : ℚ, ConvertLog.snapc vx eps ≠ 0 → ConvertLog.snapc vy eps ≠ 0 →
        |ConvertLog.snapc vy eps| > |ConvertLog.snapc vx eps| →
        ConvertLog.angle_from_vec vx vy eps =
          some (if ConvertLog.snapc vy eps > 0 then 90 else 270)) ∧
    (∀ vx vy eps : ℚ, ConvertLog.snapc vx eps ≠ 0 → ConvertLog.snapc vy eps ≠ 0 →
        |ConvertLog.snapc vx eps| = |ConvertLog.snapc vy eps| →
        ConvertLog.angle_from_vec vx vy eps =
          some (if ConvertLog.snapc vx eps > 0 then 0 else 180)) := by
  refine ⟨?_, ?_, ?_⟩
  · intro vx vy eps hx hy hdom
    simp only [ConvertLog.angle_from_vec, pyAbs_eq_abs]
    rw [if_neg (by tauto), if_neg hy, if_neg hx, if_pos (le_of_lt hdom)]
  · intro vx vy eps hx hy hdom
    simp only [ConvertLog.angle_from_vec, pyAbs_eq_abs]
    rw [if_neg (by tauto), if_neg hy, if_neg hx, if_neg (not_le.mpr hdom)]
  · intro vx vy eps hx hy htie
    simp only [ConvertLog.angle_from_vec, pyAbs_eq_abs]
    rw [if_neg (by tauto), if_neg hy, if_neg hx, if_pos (le_of_eq htie.symm)]

/-- Claim C4, witness for the amended theorem at concrete vectors:
dominance `(3, -1) ↦ 0`, dominance `(-1, 3) ↦ 90`, and the tie
`(1, 1) ↦ 0` (horizontal), all with the default epsilon. -/
theorem C4_amended_witness :
    ConvertLog.angle_from_vec 3 (-1) (1 / 1000000) = some 0 ∧
    ConvertLog.angle_from_vec (-1) 3 (1 / 1000000) = some 90 ∧
    ConvertLog.angle_from_vec 1 1 (1 / 1000000) = some 0 := by
  refine ⟨?_, ?_, ?_⟩
  · have h := C4_amended_dominant_axis_tie_horizontal.1 3 (-1) (1 / 1000000)
      (by norm_num [ConvertLog.snapc, pyAbs]) (by norm_num [ConvertLog.snapc, pyAbs])
      (by norm_num [ConvertLog.snapc, pyAbs])
    exact h.trans (by norm_num [ConvertLog.snapc, pyAbs])
  · have h := C4_amended_dominant_axis_tie_horizontal.2.1 (-1) 3 (1 / 1000000)
      (by norm_num [ConvertLog.snapc, pyAbs]) (by norm_num [ConvertLog.snapc, pyAbs])
      (by norm_num [ConvertLog.snapc, pyAbs])
    exact h.trans (by norm_num [ConvertLog.snapc, pyAbs])
  · have h := C4_amended_dominant_axis_tie_horizontal.2.2 1 1 (1 / 1000000)
      (by norm_num [ConvertLog.snapc, pyAbs]) (by norm_num [ConvertLog.snapc, pyAbs])
      (by norm_num [ConvertLog.snapc, pyAbs])
    exact h.trans (by norm_num [ConvertLog.snapc, pyAbs])

/-- No element emitted by `dedupAux` carries a key from the `seen` set. -/
theorem dedupAux_key_not_seen {α κ : Type} [DecidableEq κ] (key : α → κ) :
    ∀ (l : List α) (seen : List κ) (x : α),
      x ∈ ConvertLog.dedupAux key l seen → key x ∉ seen := by
  intro l
  induction l with
  | nil => intro seen x hx; simp [ConvertLog.dedupAux] at hx
  | cons a as ih =>
    intro seen x hx
    by_cases ha : key a ∈ seen
    · rw [ConvertLog.dedupAux, if_pos ha] at hx
      exact ih seen x hx
    · rw [ConvertLog.dedupAux, if_neg ha] at hx
      rcases List.mem_cons.mp hx with h | h
      · subst h; exact ha
      · intro hmem
        exact ih (key a :: seen) x h (List.mem_cons_of_mem _ hmem)

/-- The keys of a `dedupAux` output are pairwise distinct. -/
theorem dedupAux_keys_nodup {α κ : Type} [DecidableEq κ] (key : α → κ) :
    ∀ (l : List α) (seen : List κ),
      ((ConvertLog.dedupAux key l seen).map key).Nodup := by
  intro l
  induction l with
  | nil => intro seen; simp [ConvertLog.dedupAux]
  | cons a as ih =>
    intro seen
    by_cases ha : key a ∈ seen
    · rw [ConvertLog.dedupAux, if_pos ha]; exact ih seen
    · rw [ConvertLog.dedupAux, if_neg ha]
      refine List.nodup_cons.mpr ⟨?_, ih (key a :: seen)⟩
      intro hmem
      rcases List.mem_map.mp hmem with ⟨x, hx, hkey⟩
      exact dedupAux_key_not_seen key as (key a :: seen) x hx
        (hkey ▸ List.mem_cons_self _ _)

/-- `dedupAux` output is an in-order sublist of its input. -/
theorem dedupAux_sublist {α κ : Type} [DecidableEq κ] (key : α → κ) :
    ∀ (l : List α) (seen : List κ),
      List.Sublist (ConvertLog.dedupAux key l seen) l := by
  intro l
  induction l with
  | nil => intro seen; simp [ConvertLog.dedupAux]
  | cons a as ih =>
    intro seen
    by_cases ha : key a ∈ seen
    · rw [ConvertLog.dedupAux, if_pos ha]
      exact List.Sublist.cons a (ih seen)
    · rw [ConvertLog.dedupAux, if_neg ha]
      exact List.Sublist.cons₂ a (ih (key a :: seen))

/-- `dedupAux` is the identity on a list whose keys are pairwise
distinct and disjoint from the `seen` set. -/
theorem dedupAux_eq_self {α κ : Type} [DecidableEq κ] (key : α → κ) :
    ∀ (l : List α) (seen : List κ),
      ((l.map key).Nodup) → (∀ x ∈ l, key x ∉ seen) →
      ConvertLog.dedupAux key l seen = l := by
  intro l
  induction l with
  | nil => intro seen _ _; rfl
  | cons a as ih =>
    intro seen hnd hdisj
    have ha : key a ∉ seen := hdisj a (List.mem_cons_self _ _)
    rw [ConvertLog.dedupAux, if_neg ha]
    rw [List.map_cons] at hnd
    have hnd' := List.nodup_cons.mp hnd
    refine congrArg (a :: ·) (ih (key a :: seen) hnd'.2 ?_)
    intro x hx hmem
    rcases List.mem_cons.mp hmem with h | h
    · exact hnd'.1 (h ▸ List.mem_map_of_mem key hx)
    · exact hdisj x (List.mem_cons_of_mem _ hx) h

/-- `dedup` is idempotent. -/
theorem dedup_idempotent {α κ : Type} [DecidableEq κ] (key : α → κ) (l : List α) :
    ConvertLog.dedup key (ConvertLog.dedup key l) = ConvertLog.dedup key l :=
  dedupAux_eq_self key _ [] (dedupAux_keys_nodup key l []) (by simp)

/-- When the second element repeats the first element's key, `dedup`
drops it no matter what follows. -/
theorem dedup_drop_second {α κ : Type} [DecidableEq κ] (key : α → κ)
    (p q : α) (rest : List α) (h : key p = key q) :
    ConvertLog.dedup key (p :: q :: rest) = ConvertLog.dedup key (p :: rest) := by
  simp [ConvertLog.dedup, ConvertLog.dedupAux, h]

/-- Claim C10: at finalization `parse_log` dedups each symbol's pins by
the coordinate key `(startX, startY, hotptX or startX, hotptY or
startY)` alone — the key is oblivious to names and direction flags, the
second of two same-key records is dropped whatever else differs, the
surviving pins carry pairwise-distinct keys, and the output is an
in-order sublist of the input (first occurrences, input order). -/
theorem C10_pin_dedup_by_coordinate_key :
    (∀ (sx sy hx hy n1 n2 a1 a2 a3 a4 a5 b1 b2 b3 b4 b5 : Option String),
        ConvertLog.pinKey ⟨n1, sx, sy, hx, hy, a1, a2, a3, a4, a5⟩ =
          ConvertLog.pinKey ⟨n2, sx, sy, hx, hy, b1, b2, b3, b4, b5⟩) ∧
    (∀ (p q : ConvertLog.LogPin) (rest : List ConvertLog.LogPin),
        ConvertLog.pinKey p = ConvertLog.pinKey q →
        ConvertLog.dedup ConvertLog.pinKey (p :: q :: rest) =
          ConvertLog.dedup ConvertLog.pinKey (p :: rest)) ∧
    (∀ pins : List ConvertLog.LogPin,
        ((ConvertLog.dedup ConvertLog.pinKey pins).map ConvertLog.pinKey).Nodup) ∧
    (∀ pins : List ConvertLog.LogPin,
        List.Sublist (ConvertLog.dedup ConvertLog.pinKey pins) pins) := by
  refine ⟨?_, ?_, ?_, ?_⟩
  · intro sx sy hx hy n1 n2 a1 a2 a3 a4 a5 b1 b2 b3 b4 b5
    rfl
  · intro p q rest h
    exact dedup_drop_second ConvertLog.pinKey p q rest h
  · intro pins
    exact dedupAux_keys_nodup ConvertLog.pinKey pins []
  · intro pins
    exact dedupAux_sublist ConvertLog.pinKey pins []

/-- Claim C10, witness: two pins at identical coordinates but with
different names and different `isUpPointing` flags collapse to the
first one. -/
theorem C10_pin_dedup_witness :
    ConvertLog.dedup ConvertLog.pinKey
      [⟨some "A", some "1", some "2", none, none, none, none, none, some "true", none⟩,
       ⟨some "B", some "1", some "2", none, none, none, none, none, some "false", none⟩] =
      [⟨some "A", some "1", some "2", none, none, none, none, none, some "true", none⟩] :=
  (C10_pin_dedup_by_coordinate_key.2.1
      ⟨some "A", some "1", some "2", none, none, none, none, none, some "true", none⟩
      ⟨some "B", some "1", some "2", none, none, none, none, none, some "false", none⟩
      [] rfl).trans (by decide)

/-- Claim C6: wires `(0,0)-(1,1)` and `(1,1)-(2,2)` place the pins at
`(0,0)` (refA/1) and `(2,2)` (refB/1) in the same net group, while the
pin at `(5,5)` (refC/1), touched by no wire, forms its own singleton
net — produced as an ordinary net with the next code, not an error. -/
theorem C6_connectivity_same_net_and_singleton :
    Extractor.netsOf
      [(((0 : ℤ), (0 : ℤ)), ("refA", "1")),
       (((2 : ℤ), (2 : ℤ)), ("refB", "1")),
       (((5 : ℤ), (5 : ℤ)), ("refC", "1"))]
      [(((0 : ℤ), (0 : ℤ)), ((1 : ℤ), (1 : ℤ))),
       (((1 : ℤ), (1 : ℤ)), ((2 : ℤ), (2 : ℤ)))] =
      [("refA/1", 1, [("refA", "1"), ("refB", "1")]),
       ("refC/1", 2, [("refC", "1")])] := by
  decide

/-- Splitting a parent-map lookup across an append. -/
theorem lookupP_append (p1 p2 : Extractor.PMap) (x : Extractor.Coord) :
    Extractor.lookupP (p1 ++ p2) x =
      match Extractor.lookupP p1 x with
      | some v => some v
      | none => Extractor.lookupP p2 x := by
  induction p1 with
  | nil => simp [Extractor.lookupP]
  | cons kv t ih =>
    by_cases h : kv.1 = x
    · simp [Extractor.lookupP, List.find?_cons, h]
    · simpa [Extractor.lookupP, List.find?_cons, h] using ih

/-- Distinct chain nodes. -/
theorem chainNode_inj (i j : ℕ) : Extractor.chainNode i = Extractor.chainNode j ↔ i = j := by
  simp [Extractor.chainNode, Prod.ext_iff]

/-- Looking up a node at or beyond the end of the chain fails. -/
theorem lookupP_chainP_ge (n i : ℕ) (h : n ≤ i) :
    Extractor.lookupP (Extractor.chainP n) (Extractor.chainNode i) = none := by
  induction n with
  | zero => simp [Extractor.chainP, Extractor.lookupP]
  | succ m ih =>
    rw [Extractor.chainP, List.range_succ, List.map_append]
    rw [lookupP_append]
    rw [show (List.range m).map
        (fun j => (Extractor.chainNode j, Extractor.chainNode (j + 1))) =
        Extractor.chainP m from rfl]
    rw [ih (by omega)]
    have hne : Extractor.chainNode m ≠ Extractor.chainNode i := by
      rw [Ne, chainNode_inj]; omega
    simp [Extractor.lookupP, List.find?_cons, hne]

/-- Looking up an interior chain node returns its successor. -/
theorem lookupP_chainP_lt (n i : ℕ) (h : i < n) :
    Extractor.lookupP (Extractor.chainP n) (Extractor.chainNode i) =
      some (Extractor.chainNode (i + 1)) := by
  induction n with
  | zero => omega
  | succ m ih =>
    rw [Extractor.chainP, List.range_succ, List.map_append]
    rw [lookupP_append]
    rcases Nat.lt_or_ge i m with hm | hm
    · rw [show (List.range m).map
          (fun j => (Extractor.chainNode j, Extractor.chainNode (j + 1))) =
          Extractor.chainP m from rfl, ih hm]
    · have him : i = m := by omega
      subst him
      rw [show (List.range i).map
          (fun j => (Extractor.chainNode j, Extractor.chainNode (j + 1))) =
          Extractor.chainP i from rfl]
      rw [lookupP_chainP_ge i i (le_refl i)]
      simp [Extractor.lookupP, List.find?_cons]

/-- `setdefault` is the identity when the key is present. -/
theorem setdefaultP_present (p : Extractor.PMap) (x v : Extractor.Coord)
    (h : Extractor.lookupP p x = some v) : Extractor.setdefaultP p x = p := by
  rcases Option.map_eq_some'.mp h with ⟨kv, hkv, _⟩
  unfold Extractor.setdefaultP
  rw [hkv]
  simp

/-- `setdefault` appends a self-parented entry when the key is absent. -/
theorem setdefaultP_absent (p : Extractor.PMap) (x : Extractor.Coord)
    (h : Extractor.lookupP p x = none) :
    Extractor.setdefaultP p x = p ++ [(x, x)] := by
  have hf : p.find? (fun kv => kv.1 = x) = none := Option.map_eq_none'.mp h
  unfold Extractor.setdefaultP
  rw [hf]
  simp

/-- On the straight chain of length `n`, `find` started at node `i`
(with `i + d = n`) reaches the root in exactly `d + 1` nested
invocations, and any fuel budget of at most `d` is exhausted before a
root is reached. -/
theorem find_chain_depth :
    ∀ (d i n : ℕ), i + d = n →
      (∃ p2, Extractor.find (d + 1) (Extractor.chainP n) (Extractor.chainNode i) =
          some (Extractor.chainNode n, p2, d + 1)) ∧
      (∀ f : ℕ, f ≤ d →
          Extractor.find f (Extractor.chainP n) (Extractor.chainNode i) = none) := by
  intro d
  induction d with
  | zero =>
    intro i n hin
    have hi : i = n := by omega
    subst hi
    have habs := lookupP_chainP_ge i i (le_refl i)
    constructor
    · refine ⟨Extractor.chainP i ++ [(Extractor.chainNode i, Extractor.chainNode i)], ?_⟩
      rw [Extractor.find]
      rw [setdefaultP_absent _ _ habs]
      rw [lookupP_append, habs]
      simp [Extractor.lookupP, List.find?_cons]
    · intro f hf
      have hf0 : f = 0 := Nat.le_zero.mp hf
      subst hf0
      rfl
  | succ d ih =>
    intro i n hin
    have hlt : i < n := by omega
    have hlk := lookupP_chainP_lt n i hlt
    have hsd := setdefaultP_present _ _ _ hlk
    have hne : Extractor.chainNode (i + 1) ≠ Extractor.chainNode i := by
      rw [Ne, chainNode_inj]; omega
    have hih := ih (i + 1) n (by omega)
    constructor
    · rcases hih.1 with ⟨p2, hp2⟩
      refine ⟨Extractor.setP p2 (Extractor.chainNode i) (Extractor.chainNode n), ?_⟩
      rw [Extractor.find, hsd, hlk]
      simp only [if_neg hne, hp2]
    · intro f hf
      match f with
      | 0 => rfl
      | g + 1 =>
        have hg : g ≤ d := by omega
        rw [Extractor.find, hsd, hlk]
        simp only [if_neg hne, hih.2 g hg]

/-- Claim C5: `DSU.find` is *recursive*, not iterative — on a straight
parent chain of length `n` it needs `n + 1` nested invocations (stack
frames): with that much fuel it returns the root and reports recursion
depth `n + 1`, and with any budget of at most `n` it runs out before
reaching the root.  The stack required therefore grows without bound in
the chain length, contrary to the claim of an iterative, stack-safe
implementation. -/
theorem C5_find_recursion_depth_unbounded (n : ℕ) :
    (∃ p2, Extractor.find (n + 1) (Extractor.chainP n) (Extractor.chainNode 0) =
        some (Extractor.chainNode n, p2, n + 1)) ∧
    (∀ f : ℕ, f ≤ n →
        Extractor.find f (Extractor.chainP n) (Extractor.chainNode 0) = none) :=
  find_chain_depth n 0 n (by omega)

/-- Claim C5, witness at the concrete chain `(0,0)→(1,0)→(2,0)→(3,0)`:
four nested invocations succeed with depth 4; three are not enough. -/
theorem C5_find_depth_witness :
    (∃ p2, Extractor.find 4 (Extractor.chainP 3) (Extractor.chainNode 0) =
        some (Extractor.chainNode 3, p2, 4)) ∧
    Extractor.find 3 (Extractor.chainP 3) (Extractor.chainNode 0) = none :=
  ⟨(C5_find_recursion_depth_unbounded 3).1,
   (C5_find_recursion_depth_unbounded 3).2 3 (le_refl 3)⟩

/-- Snapping to the epsilon grid is idempotent. -/
theorem snap_snap (v eps : ℚ) :
    ConvertLog.snap (ConvertLog.snap v eps) eps = ConvertLog.snap v eps := by
  unfold ConvertLog.snap
  by_cases h : eps > 0
  · rw [if_pos h, if_pos h, mul_div_cancel_right₀ _ (ne_of_gt h), pyRound_intCast]
  · rw [if_neg h, if_neg h]

/-- Snapping a whole segment is idempotent. -/
theorem snapSeg_snapSeg (s : ConvertLog.Seg) (eps : ℚ) :
    ConvertLog.snapSeg (ConvertLog.snapSeg s eps) eps = ConvertLog.snapSeg s eps := by
  simp [ConvertLog.snapSeg, ConvertLog.snap_pt, ConvertLog.segA, ConvertLog.segB, snap_snap]

/-- Every segment surviving the snap-and-filter pass is already snapped
and long enough. -/
theorem mem_preprocessCore (eps m : ℚ) :
    ∀ (l : List ConvertLog.Seg) (x : ConvertLog.Seg),
      x ∈ ConvertLog.preprocessCore eps m l →
      ConvertLog.snapSeg x eps = x ∧ ¬(m > 0 ∧ ConvertLog.segLenSq x < m ^ 2) := by
  intro l
  induction l with
  | nil => intro x hx; simp [ConvertLog.preprocessCore] at hx
  | cons s rest ih =>
    intro x hx
    simp only [ConvertLog.preprocessCore] at hx
    by_cases hc : m > 0 ∧ ConvertLog.segLenSq (ConvertLog.snapSeg s eps) < m ^ 2
    · rw [if_pos hc] at hx
      exact ih x hx
    · rw [if_neg hc] at hx
      rcases List.mem_cons.mp hx with h | h
      · subst h
        exact ⟨snapSeg_snapSeg s eps, hc⟩
      · exact ih x h

/-- The snap-and-filter pass is the identity on a list of snapped,
long-enough segments. -/
theorem preprocessCore_fixed (eps m : ℚ) :
    ∀ l : List ConvertLog.Seg,
      (∀ t ∈ l, ConvertLog.snapSeg t eps = t ∧ ¬(m > 0 ∧ ConvertLog.segLenSq t < m ^ 2)) →
      ConvertLog.preprocessCore eps m l = l := by
  intro l
  induction l with
  | nil => intro _; rfl
  | cons s rest ih =>
    intro h
    have hs := h s (List.mem_cons_self _ _)
    simp only [ConvertLog.preprocessCore]
    rw [hs.1, if_neg hs.2]
    exact congrArg (s :: ·) (ih fun t ht => h t (List.mem_cons_of_mem _ ht))

/-- Boolean pair order unfolded. -/
theorem pairLe_iff (a b : ConvertLog.Pt) :
    ConvertLog.pairLe a b = true ↔ (a.1 < b.1 ∨ (a.1 = b.1 ∧ a.2 ≤ b.2)) := by
  simp [ConvertLog.pairLe]

/-- The pair order is total. -/
theorem pairLe_total (a b : ConvertLog.Pt) :
    ConvertLog.pairLe a b = true ∨ ConvertLog.pairLe b a = true := by
  rw [pairLe_iff, pairLe_iff]
  rcases lt_trichotomy a.1 b.1 with h | h | h
  · exact Or.inl (Or.inl h)
  · rcases le_total a.2 b.2 with h2 | h2
    · exact Or.inl (Or.inr ⟨h, h2⟩)
    · exact Or.inr (Or.inr ⟨h.symm, h2⟩)
  · exact Or.inr (Or.inl h)

/-- The pair order is antisymmetric. -/
theorem pairLe_antisymm (a b : ConvertLog.Pt)
    (hab : ConvertLog.pairLe a b = true) (hba : ConvertLog.pairLe b a = true) : a = b := by
  rw [pairLe_iff] at hab hba
  rcases hab with h1 | ⟨h1, h1'⟩ <;> rcases hba with h2 | ⟨h2, h2'⟩
  · exact absurd h2 (asymm h1)
  · exact absurd h2 (ne_of_gt h1)
  · exact absurd h1 (ne_of_gt h2)
  · exact Prod.ext h1 (le_antisymm h1' h2')

/-- Python's two-element `sorted` does not depend on argument order. -/
theorem sortPair_comm (a b : ConvertLog.Pt) :
    ConvertLog.sortPair a b = ConvertLog.sortPair b a := by
  unfold ConvertLog.sortPair
  by_cases h1 : ConvertLog.pairLe a b = true
  · by_cases h2 : ConvertLog.pairLe b a = true
    · have := pairLe_antisymm a b h1 h2
      subst this
      rfl
    · rw [if_pos h1, if_neg h2]
  · have h2 : ConvertLog.pairLe b a = true := (pairLe_total a b).resolve_left h1
    rw [if_neg h1, if_pos h2]

/-- Claim C7: `preprocess_segments` is idempotent for any snap epsilon
and minimum length (in particular the claimed nonnegative ones); the
dedup key ignores endpoint order; the output is an in-order sublist of
the snapped-and-filtered input (so output order is first-occurrence
insertion order); surviving keys are pairwise distinct; and a second
segment with the key of an earlier one is dropped (only the first
occurrence survives). -/
theorem C7_preprocess_idempotent_first_occurrence :
    (∀ (segs : List ConvertLog.Seg) (eps minLen : ℚ), 0 ≤ eps → 0 ≤ minLen →
        ConvertLog.preprocess_segments
            (ConvertLog.preprocess_segments segs eps minLen) eps minLen =
          ConvertLog.preprocess_segments segs eps minLen) ∧
    (∀ x1 y1 x2 y2 : ℚ,
        ConvertLog.seg_key (x1, y1, x2, y2) = ConvertLog.seg_key (x2, y2, x1, y1)) ∧
    (∀ (segs : List ConvertLog.Seg) (eps minLen : ℚ),
        List.Sublist (ConvertLog.preprocess_segments segs eps minLen)
          (ConvertLog.preprocessCore eps minLen segs)) ∧
    (∀ (segs : List ConvertLog.Seg) (eps minLen : ℚ),
        ((ConvertLog.preprocess_segments segs eps minLen).map ConvertLog.seg_key).Nodup) ∧
    (∀ (p q : ConvertLog.Seg) (rest : List ConvertLog.Seg),
        ConvertLog.seg_key p = ConvertLog.seg_key q →
        ConvertLog.dedup ConvertLog.seg_key (p :: q :: rest) =
          ConvertLog.dedup ConvertLog.seg_key (p :: rest)) := by
  refine ⟨?_, ?_, ?_, ?_, ?_⟩
  · intro segs eps minLen _ _
    unfold ConvertLog.preprocess_segments
    have hfix : ConvertLog.preprocessCore eps minLen
        (ConvertLog.dedup ConvertLog.seg_key (ConvertLog.preprocessCore eps minLen segs)) =
        ConvertLog.dedup ConvertLog.seg_key (ConvertLog.preprocessCore eps minLen segs) := by
      apply preprocessCore_fixed
      intro t ht
      exact mem_preprocessCore eps minLen segs t
        ((dedupAux_sublist ConvertLog.seg_key _ []).subset ht)
    rw [hfix]
    exact dedup_idempotent ConvertLog.seg_key _
  · intro x1 y1 x2 y2
    unfold ConvertLog.seg_key
    exact sortPair_comm _ _
  · intro segs eps minLen
    exact dedupAux_sublist ConvertLog.seg_key _ []
  · intro segs eps minLen
    exact dedupAux_keys_nodup ConvertLog.seg_key _ []
  · intro p q rest h
    exact dedup_drop_second ConvertLog.seg_key p q rest h

/-- Claim C7, witness: idempotence at a concrete list (a duplicate
reversed segment and a degenerate point segment, epsilon 1, minimum
length 0) and key symmetry at a concrete segment. -/
theorem C7_preprocess_witness :
    0 ≤ (1 : ℚ) ∧ 0 ≤ (0 : ℚ) ∧
    ConvertLog.preprocess_segments
        (ConvertLog.preprocess_segments [(0, 0, 10, 0), (10, 0, 0, 0), (3, 3, 3, 3)] 1 0) 1 0 =
      ConvertLog.preprocess_segments [(0, 0, 10, 0), (10, 0, 0, 0), (3, 3, 3, 3)] 1 0 ∧
    ConvertLog.seg_key (0, 0, 10, 5) = ConvertLog.seg_key (10, 5, 0, 0) :=
  ⟨by norm_num, by norm_num,
   C7_preprocess_idempotent_first_occurrence.1 [(0, 0, 10, 0), (10, 0, 0, 0), (3, 3, 3, 3)] 1 0
     (by norm_num) (by norm_num),
   C7_preprocess_idempotent_first_occurrence.2.1 0 0 10 5⟩

/-- An optional angle that is absent or one of the four cardinals. -/
def optCardinal (o : Option ℤ) : Prop :=
  o = none ∨ ∃ a, o = some a ∧ (a = 0 ∨ a = 90 ∨ a = 180 ∨ a = 270)

/-- `angle_from_vec` only ever produces cardinal angles. -/
theorem angle_from_vec_cardinal (vx vy eps : ℚ) :
    optCardinal (ConvertLog.angle_from_vec vx vy eps) := by
  unfold optCardinal ConvertLog.angle_from_vec
  dsimp only
  split_ifs <;> simp

/-- The infer fold step preserves cardinality of the best angle. -/
theorem inferStep_cardinal (st : ConvertLog.Pt) (eps : ℚ)
    (acc : Option ℤ × ℚ) (s : ConvertLog.Seg) (h : optCardinal acc.1) :
    optCardinal (ConvertLog.inferStep st eps acc s).1 := by
  unfold ConvertLog.inferStep
  dsimp only
  split_ifs with h1 h2 <;> dsimp only
  · rcases angle_from_vec_cardinal ((ConvertLog.segB s).1 - st.1)
      ((ConvertLog.segB s).2 - st.2) (pyMax (1 / 1000000) (eps / 2)) with hc | ⟨a, ha, hcard⟩
    · rw [hc]; exact h
    · rw [ha]
      dsimp only
      split_ifs
      · exact Or.inr ⟨a, rfl, hcard⟩
      · exact h
  · rcases angle_from_vec_cardinal ((ConvertLog.segA s).1 - st.1)
      ((ConvertLog.segA s).2 - st.2) (pyMax (1 / 1000000) (eps / 2)) with hc | ⟨a, ha, hcard⟩
    · rw [hc]; exact h
    · rw [ha]
      dsimp only
      split_ifs
      · exact Or.inr ⟨a, rfl, hcard⟩
      · exact h
  · exact h

/-- `infer_angle_from_segs` only ever produces cardinal angles. -/
theorem infer_angle_cardinal (st : ConvertLog.Pt) (segs : List ConvertLog.Seg) (eps : ℚ) :
    optCardinal (ConvertLog.infer_angle_from_segs st segs eps) := by
  unfold ConvertLog.infer_angle_from_segs
  have main : ∀ (l : List ConvertLog.Seg) (acc : Option ℤ × ℚ), optCardinal acc.1 →
      optCardinal (l.foldl (ConvertLog.inferStep st eps) acc).1 := by
    intro l
    induction l with
    | nil => intro acc h; exact h
    | cons s rest ih =>
      intro acc h
      exact ih (ConvertLog.inferStep st eps acc s) (inferStep_cardinal st eps acc s h)
  exact main segs (none, -1) (Or.inl rfl)

/-- The mirror transform maps cardinal angles to cardinal angles. -/
theorem TA_cardinal (mx my : Bool) (a : ℤ)
    (h : a = 0 ∨ a = 90 ∨ a = 180 ∨ a = 270) :
    ConvertLog.TA mx my a = 0 ∨ ConvertLog.TA mx my a = 90 ∨
      ConvertLog.TA mx my a = 180 ∨ ConvertLog.TA mx my a = 270 := by
  rcases h with h | h | h | h <;> subst h <;> cases mx <;> cases my <;> decide

/-- Claim C9: whatever the pin record, the segment pool, the join
epsilon and the two mirror flags, the angle `build_symbol` writes for a
pin (when it writes one at all) is one of the four cardinal values 0,
90, 180, 270. -/
theorem C9_emitted_pin_angle_is_cardinal :
    ∀ (p : ConvertLog.CPin) (segs : List ConvertLog.Seg) (joinEps : ℚ) (mx my : Bool),
      ConvertLog.builtPinAngle p segs joinEps mx my = none ∨
      ∃ a, ConvertLog.builtPinAngle p segs joinEps mx my = some a ∧
        (a = 0 ∨ a = 90 ∨ a = 180 ∨ a = 270) := by
  intro p segs joinEps mx my
  unfold ConvertLog.builtPinAngle
  rcases p.startX with _ | sx
  · exact Or.inl rfl
  rcases p.startY with _ | sy
  · exact Or.inl rfl
  dsimp only
  rcases angle_from_vec_cardinal (sx - p.hotptX.getD sx) (sy - p.hotptY.getD sy)
      (if joinEps > 0 then pyMax (1 / 1000000) (joinEps / 2) else 1 / 1000000)
    with hc | ⟨a, ha, hcard⟩
  · rw [hc]
    refine Or.inr ⟨_, rfl, ?_⟩
    rcases infer_angle_cardinal
        (if joinEps > 0 then ConvertLog.snap sx joinEps else sx,
         if joinEps > 0 then ConvertLog.snap sy joinEps else sy) segs joinEps
      with hi | ⟨b, hb, hbcard⟩
    · rw [hi]
      exact TA_cardinal mx my 0 (Or.inl rfl)
    · rw [hb]
      exact TA_cardinal mx my b hbcard
  · rw [ha]
    exact Or.inr ⟨_, rfl, TA_cardinal mx my a hcard⟩

/-- The consecutive point pairs of a polyline. -/
def pairsOf : List ConvertLog.Pt → List (ConvertLog.Pt × ConvertLog.Pt)
  | [] => []
  | [_] => []
  | a :: b :: rest => (a, b) :: pairsOf (b :: rest)

/-- A consecutive point pair corresponds, within epsilon, to the
endpoint pair of segment `s`, in either orientation. -/
def segMatch (eps : ℚ) (pq : ConvertLog.Pt × ConvertLog.Pt) (s : ConvertLog.Seg) : Prop :=
  (ConvertLog.points_close pq.1 (ConvertLog.segA s) eps = true ∧
     ConvertLog.points_close pq.2 (ConvertLog.segB s) eps = true) ∨
  (ConvertLog.points_close pq.1 (ConvertLog.segB s) eps = true ∧
     ConvertLog.points_close pq.2 (ConvertLog.segA s) eps = true)

/-- Total number of segments represented by a polyline list: a chain of
`k` points stands for `k - 1` consumed segments. -/
def sumW (polys : List (List ConvertLog.Pt)) : ℕ :=
  (polys.map fun p => p.length - 1).sum

/-- Every consecutive pair of the chain corresponds to a segment of
the pool `S`. -/
def chainOK (S : List ConvertLog.Seg) (eps : ℚ) (pts : List ConvertLog.Pt) : Prop :=
  ∀ pq ∈ pairsOf pts, ∃ s ∈ S, segMatch eps pq s

/-- Point proximity is symmetric. -/
theorem points_close_symm (a b : ConvertLog.Pt) (eps : ℚ) :
    ConvertLog.points_close a b eps = ConvertLog.points_close b a eps := by
  unfold ConvertLog.points_close
  rw [pyAbs_eq_abs, pyAbs_eq_abs, pyAbs_eq_abs, pyAbs_eq_abs,
    abs_sub_comm a.1 b.1, abs_sub_comm a.2 b.2]

/-- A point is close to itself for any nonnegative epsilon. -/
theorem points_close_refl (a : ConvertLog.Pt) (eps : ℚ) (h : 0 ≤ eps) :
    ConvertLog.points_close a a eps = true := by
  unfold ConvertLog.points_close
  simp [pyAbs_eq_abs, h]

/-- The last element of a nonempty list ignores the default. -/
theorem getLastD_irrel {α : Type} :
    ∀ (l : List α) (d1 d2 : α), l ≠ [] → l.getLastD d1 = l.getLastD d2 := by
  intro l
  induction l with
  | nil => intro d1 d2 h; exact absurd rfl h
  | cons a t ih =>
    intro d1 d2 _
    match t with
    | [] => rfl
    | b :: r =>
      show (b :: r).getLastD a = (b :: r).getLastD a
      rfl

/-- Appending a point adds exactly the pair (last point, new point). -/
theorem pairsOf_append (x : ConvertLog.Pt) :
    ∀ l : List ConvertLog.Pt, l ≠ [] →
      pairsOf (l ++ [x]) = pairsOf l ++ [(l.getLastD (0, 0), x)] := by
  intro l
  induction l with
  | nil => intro h; exact absurd rfl h
  | cons a t ih =>
    intro _
    match t with
    | [] => rfl
    | b :: r =>
      have hlast : (a :: b :: r).getLastD (0, 0) = (b :: r).getLastD (0, 0) := by
        rw [List.getLastD_cons]
        exact getLastD_irrel (b :: r) a (0, 0) (by simp)
      calc pairsOf ((a :: b :: r) ++ [x])
          = (a, b) :: pairsOf ((b :: r) ++ [x]) := rfl
        _ = (a, b) :: (pairsOf (b :: r) ++ [((b :: r).getLastD (0, 0), x)]) := by
            rw [ih (by simp)]
        _ = pairsOf (a :: b :: r) ++ [((a :: b :: r).getLastD (0, 0), x)] := by
            rw [hlast]
            rfl

/-- Prepending a point adds exactly the pair (new point, head). -/
theorem pairsOf_cons (x : ConvertLog.Pt) (l : List ConvertLog.Pt) (h : l ≠ []) :
    pairsOf (x :: l) = (x, l.headD (0, 0)) :: pairsOf l := by
  match l with
  | [] => exact absurd rfl h
  | b :: r => rfl

/-- A successful attachment grows the chain by exactly one point. -/
theorem tryAttach_length (eps : ℚ) (pts pts2 : List ConvertLog.Pt) (s : ConvertLog.Seg)
    (h : ConvertLog.tryAttach eps pts s = some pts2) :
    pts2.length = pts.length + 1 := by
  unfold ConvertLog.tryAttach at h
  dsimp only at h
  split_ifs at h
  · injection h with h2; subst h2; simp
  · injection h with h2; subst h2; simp
  · injection h with h2; subst h2; simp
  · injection h with h2; subst h2; simp

/-- A successful attachment of a pool segment preserves the pair
correspondence and nonemptiness of the chain. -/
theorem tryAttach_chainOK (eps : ℚ) (heps : 0 ≤ eps) (S : List ConvertLog.Seg)
    (s : ConvertLog.Seg) (hs : s ∈ S) (pts pts2 : List ConvertLog.Pt)
    (hne : pts ≠ []) (hok : chainOK S eps pts)
    (h : ConvertLog.tryAttach eps pts s = some pts2) :
    chainOK S eps pts2 ∧ pts2 ≠ [] := by
  unfold ConvertLog.tryAttach at h
  dsimp only at h
  split_ifs at h with h1 h2 h3 h4
  · injection h with h2'
    subst h2'
    refine ⟨?_, by simp⟩
    intro pq hpq
    rw [pairsOf_append _ pts hne] at hpq
    rcases List.mem_append.mp hpq with hin | hin
    · exact hok pq hin
    · have hpq2 : pq = (pts.getLastD (0, 0), ConvertLog.segB s) := by simpa using hin
      subst hpq2
      refine ⟨s, hs, Or.inl ⟨?_, points_close_refl _ eps heps⟩⟩
      rw [points_close_symm]
      exact h1
  · injection h with h2'
    subst h2'
    refine ⟨?_, by simp⟩
    intro pq hpq
    rw [pairsOf_append _ pts hne] at hpq
    rcases List.mem_append.mp hpq with hin | hin
    · exact hok pq hin
    · have hpq2 : pq = (pts.getLastD (0, 0), ConvertLog.segA s) := by simpa using hin
      subst hpq2
      refine ⟨s, hs, Or.inr ⟨?_, points_close_refl _ eps heps⟩⟩
      rw [points_close_symm]
      exact h2
  · injection h with h2'
    subst h2'
    refine ⟨?_, by simp⟩
    intro pq hpq
    rw [pairsOf_cons _ pts hne] at hpq
    rcases List.mem_cons.mp hpq with hin | hin
    · subst hin
      refine ⟨s, hs, Or.inr ⟨points_close_refl _ eps heps, ?_⟩⟩
      rw [points_close_symm]
      exact h3
    · exact hok pq hin
  · injection h with h2'
    subst h2'
    refine ⟨?_, by simp⟩
    intro pq hpq
    rw [pairsOf_cons _ pts hne] at hpq
    rcases List.mem_cons.mp hpq with hin | hin
    · subst hin
      refine ⟨s, hs, Or.inl ⟨points_close_refl _ eps heps, ?_⟩⟩
      rw [points_close_symm]
      exact h4
    · exact hok pq hin

/-- One scan pass preserves total point-plus-pool size. -/
theorem scanOnce_count (eps : ℚ) :
    ∀ (l : List ConvertLog.Seg) (pts : List ConvertLog.Pt),
      (ConvertLog.scanOnce eps l pts).1.length + (ConvertLog.scanOnce eps l pts).2.1.length =
        pts.length + l.length := by
  intro l
  induction l with
  | nil => intro pts; simp [ConvertLog.scanOnce]
  | cons s rest ih =>
    intro pts
    rw [ConvertLog.scanOnce]
    cases htry : ConvertLog.tryAttach eps pts s with
    | some pts2 =>
      dsimp only
      have h1 := ih pts2
      have hlen := tryAttach_length eps pts pts2 s htry
      simp only [List.length_cons]
      set r1 := (ConvertLog.scanOnce eps rest pts2).1.length with hr1
      set r2 := (ConvertLog.scanOnce eps rest pts2).2.1.length with hr2
      omega
    | none =>
      dsimp only
      have h1 := ih pts
      simp only [List.length_cons]
      omega

/-- One scan pass never adds pool segments. -/
theorem scanOnce_rest_le (eps : ℚ) :
    ∀ (l : List ConvertLog.Seg) (pts : List ConvertLog.Pt),
      (ConvertLog.scanOnce eps l pts).2.1.length ≤ l.length := by
  intro l
  induction l with
  | nil => intro pts; simp [ConvertLog.scanOnce]
  | cons s rest ih =>
    intro pts
    rw [ConvertLog.scanOnce]
    cases htry : ConvertLog.tryAttach eps pts s with
    | some pts2 =>
      dsimp only
      exact le_trans (ih pts2) (by simp)
    | none =>
      dsimp only
      simp only [List.length_cons]
      exact Nat.succ_le_succ (ih pts)

/-- One scan pass preserves the pair correspondence, chain
nonemptiness, and pool containment. -/
theorem scanOnce_inv (eps : ℚ) (heps : 0 ≤ eps) (S : List ConvertLog.Seg) :
    ∀ (l : List ConvertLog.Seg) (pts : List ConvertLog.Pt),
      (∀ x ∈ l, x ∈ S) → pts ≠ [] → chainOK S eps pts →
      chainOK S eps (ConvertLog.scanOnce eps l pts).1 ∧
      (ConvertLog.scanOnce eps l pts).1 ≠ [] ∧
      (∀ x ∈ (ConvertLog.scanOnce eps l pts).2.1, x ∈ S) := by
  intro l
  induction l with
  | nil =>
    intro pts _ hne hok
    refine ⟨?_, ?_, ?_⟩ <;> simp [ConvertLog.scanOnce]
    · exact hok
    · exact hne
  | cons s rest ih =>
    intro pts hsub hne hok
    rw [ConvertLog.scanOnce]
    cases htry : ConvertLog.tryAttach eps pts s with
    | some pts2 =>
      dsimp only
      have hstep := tryAttach_chainOK eps heps S s (hsub s (List.mem_cons_self _ _))
        pts pts2 hne hok htry
      have hrec := ih pts2 (fun x hx => hsub x (List.mem_cons_of_mem _ hx)) hstep.2 hstep.1
      exact ⟨hrec.1, hrec.2.1, hrec.2.2⟩
    | none =>
      dsimp only
      have hrec := ih pts (fun x hx => hsub x (List.mem_cons_of_mem _ hx)) hne hok
      refine ⟨hrec.1, hrec.2.1, ?_⟩
      intro x hx
      rcases List.mem_cons.mp hx with hx | hx
      · subst hx; exact hsub x (List.mem_cons_self _ _)
      · exact hrec.2.2 x hx

/-- The grow loop preserves total point-plus-pool size. -/
theorem growChain_count (eps : ℚ) :
    ∀ (fuel : ℕ) (pts : List ConvertLog.Pt) (unused : List ConvertLog.Seg),
      (ConvertLog.growChain fuel eps pts unused).1.length +
        (ConvertLog.growChain fuel eps pts unused).2.length =
        pts.length + unused.length := by
  intro fuel
  induction fuel with
  | zero => intro pts unused; rfl
  | succ n ih =>
    intro pts unused
    rw [ConvertLog.growChain]
    by_cases hg : (ConvertLog.scanOnce eps unused pts).2.2 = true
    · rw [if_pos hg]
      have h1 := ih (ConvertLog.scanOnce eps unused pts).1 (ConvertLog.scanOnce eps unused pts).2.1
      have h2 := scanOnce_count eps unused pts
      omega
    · rw [if_neg hg]
      exact scanOnce_count eps unused pts

/-- The grow loop never adds pool segments. -/
theorem growChain_rest_le (eps : ℚ) :
    ∀ (fuel : ℕ) (pts : List ConvertLog.Pt) (unused : List ConvertLog.Seg),
      (ConvertLog.growChain fuel eps pts unused).2.length ≤ unused.length := by
  intro fuel
  induction fuel with
  | zero => intro pts unused; exact le_refl _
  | succ n ih =>
    intro pts unused
    rw [ConvertLog.growChain]
    by_cases hg : (ConvertLog.scanOnce eps unused pts).2.2 = true
    · rw [if_pos hg]
      exact le_trans (ih _ _) (scanOnce_rest_le eps unused pts)
    · rw [if_neg hg]
      exact scanOnce_rest_le eps unused pts

/-- The grow loop preserves the pair correspondence, chain
nonemptiness, and pool containment. -/
theorem growChain_inv (eps : ℚ) (heps : 0 ≤ eps) (S : List ConvertLog.Seg) :
    ∀ (fuel : ℕ) (pts : List ConvertLog.Pt) (unused : List ConvertLog.Seg),
      (∀ x ∈ unused, x ∈ S) → pts ≠ [] → chainOK S eps pts →
      chainOK S eps (ConvertLog.growChain fuel eps pts unused).1 ∧
      (ConvertLog.growChain fuel eps pts unused).1 ≠ [] ∧
      (∀ x ∈ (ConvertLog.growChain fuel eps pts unused).2, x ∈ S) := by
  intro fuel
  induction fuel with
  | zero => intro pts unused hsub hne hok; exact ⟨hok, hne, hsub⟩
  | succ n ih =>
    intro pts unused hsub hne hok
    rw [ConvertLog.growChain]
    have hscan := scanOnce_inv eps heps S unused pts hsub hne hok
    by_cases hg : (ConvertLog.scanOnce eps unused pts).2.2 = true
    · rw [if_pos hg]
      exact ih _ _ hscan.2.2 hscan.2.1 hscan.1
    · rw [if_neg hg]
      exact hscan

/-- `popLast` returns the last element and the remaining prefix. -/
theorem popLast_spec {α : Type} :
    ∀ (l : List α) (s : α) (rest : List α),
      ConvertLog.popLast l = some (s, rest) → l = rest ++ [s] := by
  intro l
  induction l with
  | nil => intro s rest h; exact Option.noConfusion h
  | cons x xs ih =>
    intro s rest h
    match xs, h with
    | [], h =>
      injection h with h2
      injection h2 with ha hb
      subst ha
      subst hb
      rfl
    | y :: ys, h =>
      simp only [ConvertLog.popLast] at h
      cases hp : ConvertLog.popLast (y :: ys) with
      | none => rw [hp] at h; simp at h
      | some pr =>
        obtain ⟨z, zs⟩ := pr
        rw [hp] at h
        dsimp only at h
        injection h with h2
        injection h2 with ha hb
        subst ha
        subst hb
        have hys := ih z zs hp
        rw [show x :: y :: ys = x :: (y :: ys) from rfl, hys]
        rfl

/-- `popLast` fails only on the empty list. -/
theorem popLast_none {α : Type} :
    ∀ l : List α, ConvertLog.popLast l = none → l = [] := by
  intro l
  induction l with
  | nil => intro _; rfl
  | cons x xs ih =>
    intro h
    match xs, h with
    | [], h => exact Option.noConfusion h
    | y :: ys, h =>
      simp only [ConvertLog.popLast] at h
      cases hp : ConvertLog.popLast (y :: ys) with
      | none => exact absurd (ih hp) (by simp)
      | some pr => rw [hp] at h; simp at h

/-- `sumW` of a cons. -/
theorem sumW_cons (p : List ConvertLog.Pt) (polys : List (List ConvertLog.Pt)) :
    sumW (p :: polys) = (p.length - 1) + sumW polys := by
  simp [sumW]

/-- `sumW` is invariant under reversal. -/
theorem sumW_reverse (polys : List (List ConvertLog.Pt)) :
    sumW polys.reverse = sumW polys := by
  simp [sumW, List.sum_reverse]

/-- The outer stitch loop consumes each pooled segment into exactly one
polyline: total chain weight grows by exactly the pool size. -/
theorem stitchLoop_count (eps : ℚ) :
    ∀ (fuel : ℕ) (unused : List ConvertLog.Seg) (acc : List (List ConvertLog.Pt)),
      unused.length ≤ fuel →
      sumW (ConvertLog.stitchLoop fuel eps unused acc) = sumW acc + unused.length := by
  intro fuel
  induction fuel with
  | zero =>
    intro unused acc h
    have hu : unused = [] := List.length_eq_zero.mp (Nat.le_zero.mp h)
    subst hu
    rw [ConvertLog.stitchLoop, sumW_reverse]
    simp
  | succ n ih =>
    intro unused acc h
    rw [ConvertLog.stitchLoop]
    cases hpop : ConvertLog.popLast unused with
    | none =>
      have hu := popLast_none unused hpop
      subst hu
      rw [sumW_reverse]
      simp
    | some pr =>
      obtain ⟨s, rest⟩ := pr
      dsimp only
      have hun : unused = rest ++ [s] := popLast_spec unused s rest hpop
      have hlen : unused.length = rest.length + 1 := by rw [hun]; simp
      have hcount := growChain_count eps rest.length
        [ConvertLog.segA s, ConvertLog.segB s] rest
      have hrle := growChain_rest_le eps rest.length
        [ConvertLog.segA s, ConvertLog.segB s] rest
      have hfuel : (ConvertLog.growChain rest.length eps
          [ConvertLog.segA s, ConvertLog.segB s] rest).2.length ≤ n := by omega
      rw [ih _ _ hfuel, sumW_cons]
      simp only [List.length_cons, List.length_nil] at hcount
      omega

/-- Every polyline the outer loop emits satisfies the pool
correspondence. -/
theorem stitchLoop_chainOK (eps : ℚ) (heps : 0 ≤ eps) (S : List ConvertLog.Seg) :
    ∀ (fuel : ℕ) (unused : List ConvertLog.Seg) (acc : List (List ConvertLog.Pt)),
      (∀ x ∈ unused, x ∈ S) → (∀ p ∈ acc, chainOK S eps p) →
      ∀ p ∈ ConvertLog.stitchLoop fuel eps unused acc, chainOK S eps p := by
  intro fuel
  induction fuel with
  | zero =>
    intro unused acc _ hacc p hp
    rw [ConvertLog.stitchLoop] at hp
    exact hacc p (List.mem_reverse.mp hp)
  | succ n ih =>
    intro unused acc hsub hacc p hp
    rw [ConvertLog.stitchLoop] at hp
    cases hpop : ConvertLog.popLast unused with
    | none =>
      rw [hpop] at hp
      exact hacc p (List.mem_reverse.mp hp)
    | some pr =>
      obtain ⟨s, rest⟩ := pr
      rw [hpop] at hp
      dsimp only at hp
      have hun := popLast_spec unused s rest hpop
      have hsmem : s ∈ S := hsub s (by rw [hun]; simp)
      have hrsub : ∀ x ∈ rest, x ∈ S := fun x hx =>
        hsub x (by rw [hun]; exact List.mem_append.mpr (Or.inl hx))
      have hseed : chainOK S eps [ConvertLog.segA s, ConvertLog.segB s] := by
        intro pq hpq
        have hpq2 : pq = (ConvertLog.segA s, ConvertLog.segB s) := by
          simpa [pairsOf] using hpq
        subst hpq2
        exact ⟨s, hsmem,
          Or.inl ⟨points_close_refl _ _ heps, points_close_refl _ _ heps⟩⟩
      have hg := growChain_inv eps heps S rest.length
        [ConvertLog.segA s, ConvertLog.segB s] rest hrsub (by simp) hseed
      exact ih _ _ hg.2.2
        (fun q hq => (List.mem_cons.mp hq).elim (fun e => e ▸ hg.1) (hacc q)) p hp

/-- Claim C8: for any segment list and nonnegative join epsilon, the
stitcher consumes every input segment into exactly one output polyline
(the total chain weight — points minus one per polyline — equals the
number of input segments, so nothing is dropped or duplicated), and
every consecutive point pair of every output polyline corresponds,
within epsilon, to the endpoint pair of some input segment. -/
theorem C8_stitch_conserves_and_corresponds :
    ∀ (segs : List ConvertLog.Seg) (eps : ℚ), 0 ≤ eps →
      sumW (ConvertLog.stitch_all_tolerant segs eps) = segs.length ∧
      ∀ poly ∈ ConvertLog.stitch_all_tolerant segs eps,
        ∀ pq ∈ pairsOf poly, ∃ s ∈ segs, segMatch eps pq s := by
  intro segs eps heps
  constructor
  · rw [ConvertLog.stitch_all_tolerant]
    rw [stitchLoop_count eps segs.length segs [] (le_refl _)]
    simp [sumW]
  · intro poly hpoly
    exact stitchLoop_chainOK eps heps segs segs.length segs []
      (fun x hx => hx) (by simp) poly hpoly

/-- Claim C8, witness at the one-segment pool `[(0,0,1,0)]` with
epsilon 0: the single output chain weighs 1 and each of its consecutive
pairs matches an input segment. -/
theorem C8_stitch_witness :
    0 ≤ (0 : ℚ) ∧
    sumW (ConvertLog.stitch_all_tolerant [(0, 0, 1, 0)] 0) = 1 ∧
    ∀ poly ∈ ConvertLog.stitch_all_tolerant [(0, 0, 1, 0)] 0,
      ∀ pq ∈ pairsOf poly, ∃ s ∈ [((0 : ℚ), (0 : ℚ), (1 : ℚ), (0 : ℚ))], segMatch 0 pq s :=
  ⟨le_refl 0,
   (C8_stitch_conserves_and_corresponds [(0, 0, 1, 0)] 0 (le_refl 0)).1,
   (C8_stitch_conserves_and_corresponds [(0, 0, 1, 0)] 0 (le_refl 0)).2⟩

/-- Updating bucket `c` in place maps its lookup through `f`. -/
theorem lookupSym_updPool (c : String) (f : ConvertLog.SymRec → ConvertLog.SymRec) :
    ∀ pool : List (String × ConvertLog.SymRec),
      ConvertLog.lookupSym (ConvertLog.updPool pool c f) c =
        (ConvertLog.lookupSym pool c).map f := by
  intro pool
  induction pool with
  | nil => rfl
  | cons kv t ih =>
    by_cases h : kv.1 = c
    · simp [ConvertLog.lookupSym, ConvertLog.updPool, List.find?_cons, h]
    · simpa [ConvertLog.lookupSym, ConvertLog.updPool, List.find?_cons, h] using ih

/-- A successful lookup survives appending a fresh bucket. -/
theorem lookupSym_append (c : String) (x : String × ConvertLog.SymRec) :
    ∀ (pool : List (String × ConvertLog.SymRec)) (sym : ConvertLog.SymRec),
      ConvertLog.lookupSym pool c = some sym →
      ConvertLog.lookupSym (pool ++ [x]) c = some sym := by
  intro pool
  induction pool with
  | nil => intro sym h; exact Option.noConfusion h
  | cons kv t ih =>
    intro sym h
    by_cases hc : kv.1 = c
    · simp [ConvertLog.lookupSym, List.find?_cons, hc] at h ⊢
      exact h
    · simp only [ConvertLog.lookupSym, List.find?_cons, hc, decide_eq_true_eq,
        if_false, List.cons_append] at h ⊢
      exact ih sym h

/-- `setdefault` on the pool preserves a successful lookup. -/
theorem lookupSym_setdefault (c n : String) (pool : List (String × ConvertLog.SymRec))
    (sym : ConvertLog.SymRec) (h : ConvertLog.lookupSym pool c = some sym) :
    ConvertLog.lookupSym (ConvertLog.setdefaultPool pool n) c = some sym := by
  unfold ConvertLog.setdefaultPool
  split_ifs
  · exact h
  · exact lookupSym_append c _ pool sym h

/-- Claim C1, counterexample: a symbol whose PrimRect block has all four
coordinates (`x1=0, y1=0, x2=10, y2=5`) loses the rectangle when a new
`OOCP::PrimLine` header follows (implicit transition), when the stream
simply ends, and even when the explicit `Ending OOCP::PrimRect::read`
marker follows — that marker line contains `OOCP::PrimRect`, so the
header test resets the pending rectangle before the flush branch can
run.  `parse_log` leaves the segments empty in all three runs, although
the completed rectangle would flush four edges. -/
theorem C1_counterexample_complete_rect_dropped :
    (ConvertLog.parse_log [ConvertLog.nameLn "FOO", ConvertLog.primRectLn,
        ConvertLog.coordLn .x1 0, ConvertLog.coordLn .y1 0,
        ConvertLog.coordLn .x2 10, ConvertLog.coordLn .y2 5,
        ConvertLog.primLineLn]).map (fun s => s.segments) = [[]] ∧
    (ConvertLog.parse_log [ConvertLog.nameLn "FOO", ConvertLog.primRectLn,
        ConvertLog.coordLn .x1 0, ConvertLog.coordLn .y1 0,
        ConvertLog.coordLn .x2 10, ConvertLog.coordLn .y2 5]).map
        (fun s => s.segments) = [[]] ∧
    (ConvertLog.parse_log [ConvertLog.nameLn "FOO", ConvertLog.primRectLn,
        ConvertLog.coordLn .x1 0, ConvertLog.coordLn .y1 0,
        ConvertLog.coordLn .x2 10, ConvertLog.coordLn .y2 5,
        ConvertLog.endRectLn]).map (fun s => s.segments) = [[]] ∧
    ConvertLog.flush_rect ⟨some 0, some 0, some 10, some 5⟩ [] ≠ [] := by
  refine ⟨by decide, by decide, by decide, by decide⟩

/-- Claim C1, amended: in `parse_log` a PrimLine primitive flushes the
moment its fourth coordinate arrives, but a complete pending PrimRect
flushes only when a `[debug] 0x` trace-block line is seen.  The
explicit `Ending OOCP::PrimRect::read` marker cannot flush: any such
line contains the substring `OOCP::PrimRect`, so the header branch
catches it first and resets the pending rectangle.  On every new
primitive, pin or symbol header line — the end marker included — and
at end of stream, a complete pending rectangle is silently discarded,
its segments never appended. -/
theorem C1_amended_flush_only_on_debug_block :
    (∀ (st : ConvertLog.PState) (c : String) (sym : ConvertLog.SymRec) (x1 y1 x2 y2 : ℤ),
      st.cur = some c →
      ConvertLog.lookupSym st.pool c = some sym →
      st.rect_state = some ⟨some x1, some y1, some x2, some y2⟩ →
      ((ConvertLog.step st ConvertLog.primLineLn).rect_state = none ∧
       (ConvertLog.lookupSym (ConvertLog.step st ConvertLog.primLineLn).pool c).map
           (fun s : ConvertLog.SymRec => s.segments) = some sym.segments) ∧
      ((ConvertLog.step st ConvertLog.primRectLn).rect_state =
          some ConvertLog.emptyFields ∧
       (ConvertLog.lookupSym (ConvertLog.step st ConvertLog.primRectLn).pool c).map
           (fun s : ConvertLog.SymRec => s.segments) = some sym.segments) ∧
      ((ConvertLog.step st ConvertLog.primEllipseLn).rect_state = none ∧
       (ConvertLog.lookupSym (ConvertLog.step st ConvertLog.primEllipseLn).pool c).map
           (fun s : ConvertLog.SymRec => s.segments) = some sym.segments) ∧
      ((ConvertLog.step st ConvertLog.pinHeaderLn).rect_state = none ∧
       (ConvertLog.lookupSym (ConvertLog.step st ConvertLog.pinHeaderLn).pool c).map
           (fun s : ConvertLog.SymRec => s.segments) = some sym.segments) ∧
      (∀ n : String,
       (ConvertLog.step st (ConvertLog.nameLn n)).rect_state = none ∧
       (ConvertLog.lookupSym (ConvertLog.step st (ConvertLog.nameLn n)).pool c).map
           (fun s : ConvertLog.SymRec => s.segments) = some sym.segments) ∧
      ((ConvertLog.step st ConvertLog.endRectLn).rect_state =
          some ConvertLog.emptyFields ∧
       (ConvertLog.lookupSym (ConvertLog.step st ConvertLog.endRectLn).pool c).map
           (fun s : ConvertLog.SymRec => s.segments) = some sym.segments) ∧
      ((ConvertLog.step st ConvertLog.debugHexLn).rect_state = none ∧
       (ConvertLog.lookupSym (ConvertLog.step st ConvertLog.debugHexLn).pool c).map
           (fun s : ConvertLog.SymRec => s.segments) =
         some (sym.segments ++ ConvertLog.rectEdges x1 y1 x2 y2))) ∧
    (∀ (st : ConvertLog.PState) (c : String) (sym : ConvertLog.SymRec) (x1 y1 x2 v : ℤ),
      st.cur = some c →
      ConvertLog.lookupSym st.pool c = some sym →
      st.seg_state = some ⟨some x1, some y1, some x2, none⟩ →
      (ConvertLog.step st (ConvertLog.coordLn .y2 v)).seg_state = none ∧
      (ConvertLog.lookupSym (ConvertLog.step st (ConvertLog.coordLn .y2 v)).pool c).map
          (fun s : ConvertLog.SymRec => s.segments) =
        some (sym.segments ++ [(x1, y1, x2, v)])) := by
  constructor
  · intro st c sym x1 y1 x2 y2 hcur hlook hrect
    obtain ⟨pool, cur, segst, rectst, ellst⟩ := st
    dsimp only at hcur hlook hrect
    subst hcur
    subst hrect
    refine ⟨⟨?_, ?_⟩, ⟨?_, ?_⟩, ⟨?_, ?_⟩, ⟨?_, ?_⟩, ?_, ⟨?_, ?_⟩, ⟨?_, ?_⟩⟩
    · simp [ConvertLog.step, ConvertLog.primLineLn]
    · simp [ConvertLog.step, ConvertLog.primLineLn, hlook]
    · simp [ConvertLog.step, ConvertLog.primRectLn]
    · simp [ConvertLog.step, ConvertLog.primRectLn, hlook]
    · simp [ConvertLog.step, ConvertLog.primEllipseLn]
    · simp [ConvertLog.step, ConvertLog.primEllipseLn, hlook]
    · simp [ConvertLog.step, ConvertLog.pinHeaderLn]
    · simp [ConvertLog.step, ConvertLog.pinHeaderLn, lookupSym_updPool, hlook]
    · intro n
      constructor
      · simp [ConvertLog.step, ConvertLog.nameLn]
      · simp only [ConvertLog.step, ConvertLog.nameLn]
        rw [lookupSym_setdefault c n pool sym hlook]
        rfl
    · simp [ConvertLog.step, ConvertLog.endRectLn]
    · simp [ConvertLog.step, ConvertLog.endRectLn, hlook]
    · cases segst <;> cases ellst <;> simp [ConvertLog.step, ConvertLog.debugHexLn]
    · cases segst <;> cases ellst <;>
        simp [ConvertLog.step, ConvertLog.debugHexLn, lookupSym_updPool, hlook,
          ConvertLog.flush_rect]
  · intro st c sym x1 y1 x2 v hcur hlook hseg
    obtain ⟨pool, cur, segst, rectst, ellst⟩ := st
    dsimp only at hcur hlook hseg
    subst hcur
    subst hseg
    constructor
    · cases rectst <;> cases ellst <;>
        simp [ConvertLog.step, ConvertLog.coordLn, ConvertLog.ckeyStr, ConvertLog.pinKeys,
          ConvertLog.setField, ConvertLog.complete]
    · cases rectst <;> cases ellst <;>
        simp [ConvertLog.step, ConvertLog.coordLn, ConvertLog.ckeyStr, ConvertLog.pinKeys,
          ConvertLog.setField, ConvertLog.complete, lookupSym_updPool, hlook]

/-- Claim C1, witness: at the concrete state reached after
`normalName = FOO` and a complete PrimRect block, a PrimLine header
discards the rectangle (segments stay empty), the `Ending
OOCP::PrimRect::read` marker likewise discards it (resetting to a
fresh empty record), a `[debug] 0x` line flushes its four edges, and a
PrimLine block with three coordinates flushes its segment the moment
`y2` arrives. -/
theorem C1_amended_witness :
    ((ConvertLog.step (List.foldl ConvertLog.step ConvertLog.initState
        [ConvertLog.nameLn "FOO", ConvertLog.primRectLn, ConvertLog.coordLn .x1 0,
         ConvertLog.coordLn .y1 0, ConvertLog.coordLn .x2 10, ConvertLog.coordLn .y2 5])
        ConvertLog.primLineLn).rect_state = none ∧
     (ConvertLog.lookupSym (ConvertLog.step (List.foldl ConvertLog.step ConvertLog.initState
        [ConvertLog.nameLn "FOO", ConvertLog.primRectLn, ConvertLog.coordLn .x1 0,
         ConvertLog.coordLn .y1 0, ConvertLog.coordLn .x2 10, ConvertLog.coordLn .y2 5])
        ConvertLog.primLineLn).pool "FOO").map
        (fun s : ConvertLog.SymRec => s.segments) = some []) ∧
    ((ConvertLog.step (List.foldl ConvertLog.step ConvertLog.initState
        [ConvertLog.nameLn "FOO", ConvertLog.primRectLn, ConvertLog.coordLn .x1 0,
         ConvertLog.coordLn .y1 0, ConvertLog.coordLn .x2 10, ConvertLog.coordLn .y2 5])
        ConvertLog.endRectLn).rect_state = some ConvertLog.emptyFields ∧
     (ConvertLog.lookupSym (ConvertLog.step (List.foldl ConvertLog.step ConvertLog.initState
        [ConvertLog.nameLn "FOO", ConvertLog.primRectLn, ConvertLog.coordLn .x1 0,
         ConvertLog.coordLn .y1 0, ConvertLog.coordLn .x2 10, ConvertLog.coordLn .y2 5])
        ConvertLog.endRectLn).pool "FOO").map
        (fun s : ConvertLog.SymRec => s.segments) = some []) ∧
    ((ConvertLog.lookupSym (ConvertLog.step (List.foldl ConvertLog.step ConvertLog.initState
        [ConvertLog.nameLn "FOO", ConvertLog.primRectLn, ConvertLog.coordLn .x1 0,
         ConvertLog.coordLn .y1 0, ConvertLog.coordLn .x2 10, ConvertLog.coordLn .y2 5])
        ConvertLog.debugHexLn).pool "FOO").map
        (fun s : ConvertLog.SymRec => s.segments) =
      some ([] ++ ConvertLog.rectEdges 0 0 10 5)) ∧
    ((ConvertLog.lookupSym (ConvertLog.step (List.foldl ConvertLog.step ConvertLog.initState
        [ConvertLog.nameLn "FOO", ConvertLog.primLineLn, ConvertLog.coordLn .x1 0,
         ConvertLog.coordLn .y1 0, ConvertLog.coordLn .x2 0])
        (ConvertLog.coordLn .y2 10)).pool "FOO").map
        (fun s : ConvertLog.SymRec => s.segments) =
      some ([] ++ [((0 : ℤ), (0 : ℤ), (0 : ℤ), (10 : ℤ))])) :=
  ⟨⟨((C1_amended_flush_only_on_debug_block.1 _ "FOO" ⟨"FOO", [], [], []⟩ 0 0 10 5
        (by decide) (by decide) (by decide)).1).1,
    ((C1_amended_flush_only_on_debug_block.1 _ "FOO" ⟨"FOO", [], [], []⟩ 0 0 10 5
        (by decide) (by decide) (by decide)).1).2⟩,
   (C1_amended_flush_only_on_debug_block.1 _ "FOO" ⟨"FOO", [], [], []⟩ 0 0 10 5
        (by decide) (by decide) (by decide)).2.2.2.2.2.1,
   ((C1_amended_flush_only_on_debug_block.1 _ "FOO" ⟨"FOO", [], [], []⟩ 0 0 10 5
        (by decide) (by decide) (by decide)).2.2.2.2.2.2).2,
   (C1_amended_flush_only_on_debug_block.2 _ "FOO" ⟨"FOO", [], [], []⟩ 0 0 0 10
        (by decide) (by decide) (by decide)).2⟩
